import Mathlib

/-!
Shallow embedding of the multi-project autopilot (Python sources under
`src/`) together with proofs about the behaviour its specification
describes.  Times and file ages are modelled as rationals (seconds),
calendar days as strings, and the mutable Python dictionaries as
association lists threaded through the functions that mutate them.
-/

namespace Autopilot

/-! ## Association-list dictionaries (Python `dict` semantics) -/

/-- Python `dict.get`: the value at the first matching key, if any. -/
def mapGet {α : Type} (m : List (String × α)) (k : String) : Option α :=
  (m.find? (fun kv => kv.1 = k)).map (·.2)

/-- Python `dict[k] = v`: overwrite an existing binding in place, or append. -/
def mapSet {α : Type} (m : List (String × α)) (k : String) (v : α) :
    List (String × α) :=
  if (m.find? (fun kv => kv.1 = k)).isSome then
    m.map (fun kv => if kv.1 = k then (k, v) else kv)
  else
    m ++ [(k, v)]

/-! ## String helpers shared by several modules

Python string operations used by the sources, transcribed to run on
`List Char` so that every predicate is executable and decidable. -/

/-- `b` begins with `a` (Python `str.startswith` on character lists). -/
def chStarts : List Char → List Char → Bool
  | [], _ => true
  | _ :: _, [] => false
  | a :: as, b :: bs => a = b && chStarts as bs

/-- Python `needle in hay`: substring containment. -/
def chContains (hay needle : List Char) : Bool :=
  hay.tails.any (fun t => chStarts needle t)

/-- Python `hay.find(needle)` for a needle known to occur: index of the
first occurrence (length of `hay` if absent, which callers never rely on). -/
def chFind (hay needle : List Char) : Nat :=
  match hay with
  | [] => 0
  | _ :: t => if chStarts needle hay then 0 else chFind t needle + 1

/-- Python `str.split('\n')`. -/
def splitLines (s : List Char) : List (List Char) :=
  (s.splitOn '\n')

/-- Python `str.strip()` (whitespace stripped from both ends). -/
def pyStrip (s : List Char) : List Char :=
  (s.dropWhile Char.isWhitespace).reverse.dropWhile Char.isWhitespace |>.reverse

/-- Python `str.lower()` (ASCII case folding; the sources only rely on it
for ASCII keywords). -/
def chLower (s : List Char) : List Char := s.map Char.toLower

/-! ## `src/lib/session_monitor.py` -/

/-- `SessionState`: the three derived session states. -/
inductive SessionState where
  | active
  | idle
  | done
deriving DecidableEq, Repr

/-- `ACTIVE_THRESHOLD = 120` (seconds). -/
def ACTIVE_THRESHOLD : ℚ := 120

/-- `IDLE_THRESHOLD = 360` (seconds). -/
def IDLE_THRESHOLD : ℚ := 360

/-- `SessionInfo.age_seconds`: `time.time() - self.mtime`. -/
def age_seconds (now mtime : ℚ) : ℚ := now - mtime

/-- `get_session_state`: derive the session state from the age alone. -/
def get_session_state (age : ℚ) : SessionState :=
  if age < ACTIVE_THRESHOLD then .active
  else if age < IDLE_THRESHOLD then .idle
  else .done

/-- `SessionInfo` (the fields `discover_sessions` fills in). -/
structure SessionInfo where
  path : String
  cwd : String
  mtime : ℚ
  file_size : ℕ
  session_id : Option String
deriving DecidableEq, Repr

/-- One candidate transcript log as seen by `discover_sessions` after the
directory scan: its path, the `cwd` recovered from the first record
(`none` when `_read_session_meta` failed, in which case the log is
skipped), its modification time and byte size, and the session id parsed
from the file name. -/
structure LogEntry where
  path : String
  cwd : Option String
  mtime : ℚ
  size : ℕ
  sessionId : Option String
deriving DecidableEq, Repr

/-- POSIX `os.path.normpath` component processing, transcribed from
CPython `posixpath.normpath`. -/
def normpathComps (initialSlashes : ℕ) (comps : List (List Char)) :
    List (List Char) :=
  comps.foldl (fun acc comp =>
    if comp = [] ∨ comp = ['.'] then acc
    else if comp ≠ ['.', '.'] ∨ (initialSlashes = 0 ∧ acc = []) ∨
        (acc ≠ [] ∧ acc.getLast? = some ['.', '.']) then
      acc ++ [comp]
    else if acc ≠ [] then acc.dropLast
    else acc) []

/-- `os.path.normpath` (POSIX flavour, as on the platform the sources run
on): collapse repeated separators and `.`/`..` components. -/
def normpath (p : List Char) : List Char :=
  if p = [] then ['.']
  else
    let initialSlashes : ℕ :=
      if chStarts ['/'] p then
        if chStarts ['/', '/'] p ∧ ¬ chStarts ['/', '/', '/'] p then 2 else 1
      else 0
    let comps := p.splitOn '/'
    let newComps := normpathComps initialSlashes comps
    let joined := (newComps.intersperse ['/']).flatten
    let out := List.replicate initialSlashes '/' ++ joined
    if out = [] then ['.'] else out

/-- The working-directory match in `discover_sessions`:
`norm_cwd.startswith(norm_project) or norm_cwd == norm_project`. -/
def matchesProject (cwd projectDir : String) : Bool :=
  let nc := normpath cwd.data
  let np := normpath projectDir.data
  chStarts np nc || nc = np

/-- The project a log is attributed to: the first project directory in the
list whose normalized path prefixes the log's `cwd` (the `break` in the
source stops at the first match). `none` when the meta record was
unreadable or no project matches. -/
def assignedProject (projectDirs : List String) (log : LogEntry) :
    Option String :=
  match log.cwd with
  | none => none
  | some cwd => projectDirs.find? (fun d => matchesProject cwd d)

/-- The `SessionInfo` built from a candidate log. -/
def logSession (log : LogEntry) (cwd : String) : SessionInfo :=
  ⟨log.path, cwd, log.mtime, log.size, log.sessionId⟩

/-- One iteration of the `discover_sessions` loop body: attribute the log
to its first matching project and keep the larger (size, then mtime) log. -/
def discoverStep (projectDirs : List String)
    (sessions : List (String × SessionInfo)) (log : LogEntry) :
    List (String × SessionInfo) :=
  match log.cwd with
  | none => sessions
  | some cwd =>
    match projectDirs.find? (fun d => matchesProject cwd d) with
    | none => sessions
    | some projectDir =>
      match mapGet sessions projectDir with
      | none => mapSet sessions projectDir (logSession log cwd)
      | some existing =>
        if log.size > existing.file_size ∨
            (log.size = existing.file_size ∧ log.mtime > existing.mtime) then
          mapSet sessions projectDir (logSession log cwd)
        else sessions

/-- `discover_sessions`: fold the per-log loop over all candidate logs
found by the two-pass scan (the scan itself is filesystem I/O; its result
is the `logs` list). -/
def discover_sessions (projectDirs : List String) (logs : List LogEntry) :
    List (String × SessionInfo) :=
  logs.foldl (discoverStep projectDirs) []

/-! ## `src/lib/state_manager.py` -/

/-- `TaskStateInfo` (persisted per-task state). -/
structure TaskStateInfo where
  status : String := "PENDING"
  started_at : Option String := none
  completed_at : Option String := none
  sends : ℕ := 0
  codex_summary : Option String := none
  last_codex_output : Option String := none
  last_send_at : Option String := none
deriving DecidableEq, Repr

/-- `HistoryEntry` as appended by `record_history`. -/
structure HistoryEntry where
  timestamp : String
  action : String
  project : Option String := none
  intent : Option String := none
  reply : Option String := none
  success : Bool := true
  error : Option String := none
deriving DecidableEq, Repr

/-- `ProjectState` (per-project persisted state). `last_send_at` is stored
as an ISO timestamp in the source; it is modelled as rational epoch
seconds (`none` = never sent / unparsable). -/
structure ProjectState where
  daily_sends : ℕ := 0
  daily_sends_date : String := ""
  last_send_at : Option ℚ := none
  consecutive_failures : ℕ := 0
  last_output_hash : Option String := none
  loop_count : ℕ := 0
  current_task : Option String := none
  task_states : List (String × TaskStateInfo) := []
  lifecycle : String := "enabled"
  priority : Int := 1
deriving DecidableEq, Repr

/-- `GlobalState`. -/
structure GlobalState where
  projects : List (String × ProjectState) := []
  history : List HistoryEntry := []
  started_at : Option String := none
  last_tick_at : Option String := none
  active_projects : List String := []
  paused_projects : List String := []
  project_send_order : List String := []
deriving DecidableEq, Repr

/-- `MAX_HISTORY_ENTRIES = 200`. -/
def MAX_HISTORY_ENTRIES : ℕ := 200

/-- `get_project_state`: fetch the project's state, creating a default
entry when absent (returns the state together with the updated map). -/
def get_project_state (state : GlobalState) (projectDir : String) :
    ProjectState × GlobalState :=
  match mapGet state.projects projectDir with
  | some ps => (ps, state)
  | none =>
    let ps : ProjectState := {}
    (ps, { state with projects := mapSet state.projects projectDir ps })

/-- `reset_daily_sends_if_needed`: zero the daily counter when the stored
date is not today. -/
def reset_daily_sends_if_needed (today : String) (ps : ProjectState) :
    ProjectState :=
  if ps.daily_sends_date ≠ today then
    { ps with daily_sends := 0, daily_sends_date := today }
  else ps

/-- `increment_send_count`. -/
def increment_send_count (now : ℚ) (today : String) (ps : ProjectState) :
    ProjectState :=
  let ps := reset_daily_sends_if_needed today ps
  { ps with daily_sends := ps.daily_sends + 1, last_send_at := some now }

/-- `check_cooldown`: `True` when the project is still cooling down. -/
def check_cooldown (now : ℚ) (ps : ProjectState) (cooldownSeconds : ℚ) :
    Bool :=
  match ps.last_send_at with
  | none => false
  | some lastSend => now - lastSend < cooldownSeconds

/-- `check_daily_limit`: `True` when the per-project daily cap is reached;
also performs the daily reset (mutating the state). -/
def check_daily_limit (today : String) (ps : ProjectState)
    (maxDailySends : ℕ) : Bool × ProjectState :=
  let ps := reset_daily_sends_if_needed today ps
  (ps.daily_sends ≥ maxDailySends, ps)

/-- `get_total_daily_sends`: today's sends summed over all projects. -/
def get_total_daily_sends (today : String) (state : GlobalState) : ℕ :=
  (state.projects.map (fun kv =>
    if kv.2.daily_sends_date = today then kv.2.daily_sends else 0)).sum

/-- Write a project's (mutated) per-project state back into the global
state, as Python's aliasing of `proj_state` does implicitly. -/
def putProj (state : GlobalState) (dir : String) (ps : ProjectState) :
    GlobalState :=
  { state with projects := mapSet state.projects dir ps }

/-- `record_history`: append an entry and truncate the ring buffer. -/
def record_history (state : GlobalState) (nowStr : String) (action : String)
    (project intent reply : Option String) (success : Bool)
    (error : Option String) : GlobalState :=
  let entry : HistoryEntry :=
    { timestamp := nowStr, action := action, project := project,
      intent := intent, reply := reply.map (fun r => r.take 500),
      success := success, error := error }
  let hist := state.history ++ [entry]
  let hist :=
    if hist.length > MAX_HISTORY_ENTRIES then
      hist.drop (hist.length - MAX_HISTORY_ENTRIES)
    else hist
  { state with history := hist }

/-- `STATE_PATH`: `~/.autopilot/state.json`. -/
def STATE_PATH : String := "~/.autopilot/state.json"

/-- The file-system operations relevant to how the state file is written. -/
inductive FsOp where
  | openTrunc (path : String)
  | write (path : String) (doc : String)
  | fsync (path : String)
  | rename (src dst : String)
deriving DecidableEq, Repr

/-- The sequence of file-system operations `save_state` performs on the
state file: `open(STATE_PATH, 'w')` followed by `json.dump(data, f)`.
There is no temporary file, no `fsync`, and no `rename` in the source. -/
def save_state_ops (doc : String) : List FsOp :=
  [FsOp.openTrunc STATE_PATH, FsOp.write STATE_PATH doc]

/-- Modelled from the spec: the atomic-replace write pattern the
specification attributes to `save_state` ("write to tempfile, fsync,
rename" over the state path, with no direct write of the target). -/
def atomicReplaceWrite (ops : List FsOp) (target : String) : Prop :=
  ∃ tmp, tmp ≠ target ∧
    FsOp.fsync tmp ∈ ops ∧
    FsOp.rename tmp target ∈ ops ∧
    (∀ doc, FsOp.write target doc ∉ ops) ∧
    FsOp.openTrunc target ∉ ops

/-! ## `src/lib/intent_analyzer.py` -/

/-- `Intent`. -/
inductive Intent where
  | error
  | choice
  | confirm
  | task_complete
  | review
  | default
deriving DecidableEq, Repr

/-- `ERROR_KEYWORDS`. -/
def ERROR_KEYWORDS : List String :=
  ["error", "Error", "ERROR",
   "错误", "失败", "报错",
   "failed", "Failed", "FAILED",
   "Cannot", "cannot", "can't", "Can't",
   "TypeError", "SyntaxError", "ImportError", "ModuleNotFoundError",
   "ReferenceError", "RuntimeError", "ValueError", "KeyError",
   "AttributeError", "NameError", "IndentationError",
   "Exception", "Traceback",
   "编译失败", "构建失败", "build failed",
   "npm ERR", "yarn error", "pnpm ERR"]

/-- `RESOLVED_KEYWORDS`. -/
def RESOLVED_KEYWORDS : List String :=
  ["已修复", "已解决", "修复了", "解决了",
   "fixed", "Fixed", "FIXED",
   "resolved", "Resolved", "RESOLVED",
   "已处理", "处理完成",
   "successfully", "Successfully",
   "通过", "passed", "Passed"]

/-- `CONFIRM_KEYWORDS`. -/
def CONFIRM_KEYWORDS : List String :=
  ["是否继续", "要不要", "确认", "确定",
   "proceed", "Proceed",
   "continue?", "Continue?",
   "shall I", "Shall I",
   "should I proceed", "Should I proceed",
   "可以吗", "好吗", "行吗",
   "是否", "是否要",
   "要继续吗", "继续吗",
   "你确定", "确定要",
   "需要修改的吗", "需要调整的吗", "需要改的吗",
   "有什么需要", "还有什么",
   "what do you think", "What do you think",
   "any feedback", "Any feedback",
   "let me know", "Let me know"]

/-- `COMPLETION_KEYWORDS`. -/
def COMPLETION_KEYWORDS : List String :=
  ["完成", "已完成", "全部完成",
   "done", "Done", "DONE",
   "completed", "Completed", "COMPLETED",
   "已实现", "实现完成",
   "all tasks", "All tasks",
   "所有任务", "任务完成",
   "已经完成", "都完成了",
   "finished", "Finished",
   "成功完成", "顺利完成",
   "所有测试通过", "tests passing", "tests passed",
   "已解决", "已修复",
   "继续下一步"]

/-- `REVIEW_MARKERS` other than the generic `"review"` entry, which
`_has_review` handles specially. -/
def REVIEW_MARKERS_PLAIN : List String :=
  ["[BLOCK]", "[CHANGES]", "[FINDING]",
   "[P0]", "[P1]", "[P2]", "[P3]",
   "[BUG]", "[ISSUE]", "[WARNING]",
   "[CRITICAL]", "[HIGH]", "[MEDIUM]", "[LOW]",
   "::code-comment",
   "priority=",
   "新发现",
   "优化建议", "改进建议",
   "审查结果", "代码审查"]

/-- `_is_in_quote_or_comment`: some line containing the keyword starts
(after stripping) with a quote or comment marker. -/
def isInQuoteOrComment (text keyword : List Char) : Bool :=
  (splitLines text).any (fun line =>
    chContains line keyword &&
      (let stripped := pyStrip line
       chStarts ['>'] stripped || chStarts ['/', '/'] stripped ||
       chStarts ['#'] stripped || chStarts ['*'] stripped ||
       chStarts ['`', '`', '`'] stripped))

/-- The inner per-keyword scan of `_has_error`: every line containing the
error keyword also contains a resolved keyword. -/
def errorLinesResolved (text err : List Char) : Bool :=
  ((splitLines text).filter (fun line => chContains line err)).all
    (fun line => RESOLVED_KEYWORDS.any (fun r => chContains line r.data))

/-- `_has_error`: an unresolved error keyword occurs outside
quotes/comments, and no resolved keyword precedes an error keyword. -/
def hasErrorB (text : List Char) : Bool :=
  let foundError := ERROR_KEYWORDS.any (fun e =>
    chContains text e.data && ! isInQuoteOrComment text e.data &&
      ! errorLinesResolved text e.data)
  if ¬ foundError then false
  else
    let override := RESOLVED_KEYWORDS.any (fun r =>
      chContains text r.data && ERROR_KEYWORDS.any (fun e =>
        chContains text e.data &&
          chFind text r.data < chFind text e.data))
    ¬ override

/-- The character class `[一二三ABCD123]` under `re.IGNORECASE`. -/
def fangAnClass (c : Char) : Bool :=
  c ∈ ['一', '二', '三', 'A', 'B', 'C', 'D', 'a', 'b', 'c', 'd', '1', '2', '3']

/-- A position where `方案[一二三ABCD123]` matches; returns the suffix
after the matched class character. -/
def fangAnAt : List Char → Option (List Char)
  | '方' :: '案' :: c :: rest => if fangAnClass c then some rest else none
  | _ => none

/-- First occurrence of `方案[class]` in a line: the suffix after it. -/
def findFangAn : List Char → Option (List Char)
  | [] => none
  | l@(_ :: t) =>
    match fangAnAt l with
    | some rest => some rest
    | none => findFangAn t

/-- Choice pattern 1: `方案[一二三ABCD123].*(方案[一二三ABCD123]|或者|还是)`
(`.` does not cross newlines, so the pattern matches within a line). -/
def choicePat1 (line : List Char) : Bool :=
  match findFangAn line with
  | none => false
  | some rest =>
    (findFangAn rest).isSome || chContains rest "或者".data ||
      chContains rest "还是".data

/-- `\s*` followed by a literal newline: skip non-newline whitespace, then
require `'\n'` (a `\s*\n` tail, since `'\n'` is itself whitespace). -/
def wsThenNewline : List Char → Bool
  | [] => false
  | c :: rest =>
    if c = '\n' then true
    else if c.isWhitespace then wsThenNewline rest
    else false

/-- `\s*` then a predicate on the remainder (here `\s` may cross lines). -/
def skipWs : List Char → List Char
  | [] => []
  | l@(c :: rest) => if c.isWhitespace then skipWs rest else l

/-- Choice pattern 2: `(选择|选项|方案)\s*[：:]\s*\n`. -/
def choicePat2 (text : List Char) : Bool :=
  text.tails.any (fun t =>
    (chStarts "选择".data t || chStarts "选项".data t || chStarts "方案".data t) &&
      (let rest := skipWs (t.drop 2)
       match rest with
       | c :: rest2 => (c = '：' || c = ':') && wsThenNewline rest2
       | [] => false))

/-- Choice pattern 3: `(还是|或者).*(呢|吗|？|\?)` within a line. -/
def choicePat3 (line : List Char) : Bool :=
  line.tails.any (fun t =>
    (chStarts "还是".data t || chStarts "或者".data t) &&
      (let rest := t.drop 2
       chContains rest ['呢'] || chContains rest ['吗'] ||
         chContains rest ['？'] || chContains rest ['?']))

/-- Choice pattern 4 (case-insensitive English selection phrases). -/
def choicePat4 (lower : List Char) : Bool :=
  chContains lower "should i".data || chContains lower "would you prefer".data ||
    chContains lower "which one".data || chContains lower "which option".data

/-- Choice pattern 5 (Chinese selection requests). -/
def choicePat5 (text : List Char) : Bool :=
  chContains text "请选择".data || chContains text "你选择".data ||
    chContains text "你决定".data || chContains text "你来决定".data

/-- `option [a-d]` at the head of a suffix (case already folded). -/
def optionLetterAt (t : List Char) : Option (List Char) :=
  if chStarts "option ".data t then
    match t.drop 7 with
    | c :: rest => if 'a' ≤ c ∧ c ≤ 'd' then some rest else none
    | [] => none
  else none

/-- First `option [a-d]` occurrence in a (lowered) line. -/
def findOptionLetter : List Char → Option (List Char)
  | [] => none
  | l@(_ :: t) =>
    match optionLetterAt l with
    | some rest => some rest
    | none => findOptionLetter t

/-- Choice pattern 6: `(Option [A-D]|option [a-d]).*(Option [A-D]|option [a-d])`
case-insensitively, within a line. -/
def choicePat6 (lowerLine : List Char) : Bool :=
  match findOptionLetter lowerLine with
  | none => false
  | some rest => (findOptionLetter rest).isSome

/-- `_has_choice`: any of the `CHOICE_PATTERNS` regexes matches
(`re.MULTILINE | re.IGNORECASE`; `.` never crosses a newline). -/
def hasChoiceB (text : List Char) : Bool :=
  let lines := splitLines text
  lines.any choicePat1 ||
    choicePat2 text ||
    lines.any choicePat3 ||
    choicePat4 (chLower text) ||
    choicePat5 text ||
    (splitLines (chLower text)).any choicePat6

/-- `_has_confirm`: plain substring search for any confirmation keyword. -/
def hasConfirmB (text : List Char) : Bool :=
  CONFIRM_KEYWORDS.any (fun k => chContains text k.data)

/-- A digit immediately followed by `%` (the `\d+%` core). -/
def digitPercentAt : List Char → Bool
  | c1 :: c2 :: _ => c1.isDigit && c2 = '%'
  | _ => false

/-- `\d+%.*未` within a line. -/
def incompletePercentPat (line : List Char) : Bool :=
  line.tails.any (fun t =>
    digitPercentAt t && chContains (t.drop 2) ['未'])

/-- `(未开始|未完成|0%|\d+%.*未)`. -/
def hasIncompleteSignal (text : List Char) : Bool :=
  chContains text "未开始".data || chContains text "未完成".data ||
    chContains text "0%".data ||
    (splitLines text).any incompletePercentPat

/-- `完成\s*\d+%`: the word, optional whitespace, digits, `%`. -/
def partialPercentAt (t : List Char) : Bool :=
  if chStarts "完成".data t then
    let rest := skipWs (t.drop 2)
    match rest with
    | c :: _ => c.isDigit && (let ds := rest.dropWhile Char.isDigit
                              match ds with
                              | '%' :: _ => true
                              | _ => false)
    | [] => false
  else false

/-- `re.search(r'完成\s*\d+%', text)`. -/
def hasPartialPercent (text : List Char) : Bool :=
  text.tails.any partialPercentAt

/-- `_has_completion`: completion keywords, suppressed when the text is a
progress report (both an incomplete signal and a partial percentage). -/
def hasCompletionB (text : List Char) : Bool :=
  let hasIncomplete := hasIncompleteSignal text
  let hasPartial := hasPartialPercent text
  if hasIncomplete ∧ hasPartial then false
  else COMPLETION_KEYWORDS.any (fun k => chContains text k.data)

/-- Python-regex word characters (`\w` for the `\b` boundary). -/
def isWordChar (c : Char) : Bool :=
  c.isAlpha || c.isDigit || c = '_'

/-- `(结果|后|发现|建议|:)` after `review\s*`. -/
def reviewTailWord (rest : List Char) : Bool :=
  chStarts "结果".data rest || chStarts ['后'] rest ||
    chStarts "发现".data rest || chStarts "建议".data rest ||
    chStarts [':'] rest

/-- `(?<!for\s)(?<!for )\breview\s*(结果|后|发现|建议|:)` at one position:
`rev` holds the characters before the position, most recent first. -/
def reviewSpecialAt (rev t : List Char) : Bool :=
  chStarts "review".data t &&
    (match rev with
     | [] => true
     | c :: _ => ¬ isWordChar c) &&
    (match rev with
     | c1 :: 'r' :: 'o' :: 'f' :: _ => ¬ c1.isWhitespace
     | _ => true) &&
    reviewTailWord (skipWs (t.drop 6))

/-- Scan all positions of the lowered text for the special `review` regex. -/
def reviewSpecialScan : List Char → List Char → Bool
  | _, [] => false
  | rev, l@(c :: t) => reviewSpecialAt rev l || reviewSpecialScan (c :: rev) t

/-- `(code|代码)\s*review` on the lowered text. -/
def codeReviewPat (lower : List Char) : Bool :=
  lower.tails.any (fun t =>
    (chStarts "code".data t && chStarts "review".data (skipWs (t.drop 4))) ||
      (chStarts "代码".data t && chStarts "review".data (skipWs (t.drop 2))))

/-- `_has_review`: a structural review marker, or the word `review` in the
specific contexts the source's regexes describe. -/
def hasReviewB (text : List Char) : Bool :=
  let lower := chLower text
  REVIEW_MARKERS_PLAIN.any (fun m => chContains lower (chLower m.data)) ||
    reviewSpecialScan [] lower ||
    codeReviewPat lower

/-- `analyze_intent`: priority-ordered checks, first match wins
(`None`/empty text falls through to `DEFAULT` at the top). -/
def analyze_intent (text : Option String) : Intent :=
  match text with
  | none => .default
  | some s =>
    if s = "" then .default
    else
      let t := s.data
      if hasErrorB t then .error
      else if hasChoiceB t then .choice
      else if hasConfirmB t then .confirm
      else if hasReviewB t then .review
      else if hasCompletionB t then .task_complete
      else .default

/-- Modelled from the spec: "Priority-ordered checks; first match wins."
The check list in the spec's order (error, choice, confirm, review,
task-complete), falling through to default. -/
def intentChecks : List ((List Char → Bool) × Intent) :=
  [(hasErrorB, .error), (hasChoiceB, .choice), (hasConfirmB, .confirm),
   (hasReviewB, .review), (hasCompletionB, .task_complete)]

/-- Modelled from the spec: the intent of the first matching check,
default when none matches. -/
def firstMatchIntent (t : List Char) : Intent :=
  match intentChecks.find? (fun pc => pc.1 t) with
  | some pc => pc.2
  | none => .default

/-! ## `src/lib/done_checker.py` -/

/-- The data of one file as the checker's filesystem calls observe it:
its byte size (`os.path.getsize`) and text content (`open().read()`). -/
structure FileData where
  size : ℕ
  content : String
deriving DecidableEq, Repr

/-- Outcome of one shell command run by `check_command_condition`. -/
inductive CmdOutcome where
  | finished (exitCode : Int) (stderr : String)
  | timedOut
  | raised (msg : String)
deriving DecidableEq, Repr

/-- One glob match: whether it is a regular file, and its size
(`none` when `os.path.getsize` raised `OSError`). -/
structure GlobMatch where
  path : String
  isFile : Bool
  size : Option ℕ
deriving DecidableEq, Repr

/-- The filesystem / process environment the checker runs against:
`fs` answers the existence/size/content calls (`none` = file absent),
`globMatches` the `glob.glob` call, `runCommand` the subprocess call. -/
structure CheckEnv where
  fs : String → Option FileData
  globMatches : String → List GlobMatch
  runCommand : String → CmdOutcome

/-- A `files` entry of `done_when`. -/
structure FileSpec where
  path : String := ""
  min_size : Option ℕ := none
  contains : List String := []
deriving DecidableEq, Repr

/-- A `files_glob` entry of `done_when`. -/
structure GlobSpec where
  pattern : String := ""
  min_count : ℕ := 1
  min_file_size : Option ℕ := none
deriving DecidableEq, Repr

/-- A `commands` entry of `done_when`. -/
structure CmdSpec where
  cmd : String := ""
  expect_exit : Int := 0
deriving DecidableEq, Repr

/-- A `done_when` bundle. -/
structure DoneWhen where
  files : List FileSpec := []
  files_glob : List GlobSpec := []
  commands : List CmdSpec := []
deriving DecidableEq, Repr

/-- `CheckResult`. -/
structure CheckResult where
  check_type : String
  description : String
  passed : Bool
  details : String := ""
deriving DecidableEq, Repr

/-- `DoneResult`. -/
structure DoneResult where
  passed : Bool
  results : List CheckResult := []
  summary : String := ""
deriving DecidableEq, Repr

/-- `os.path.join(dir, rel)` for the two-argument POSIX case. -/
def pathJoin (dir rel : String) : String :=
  if chStarts ['/'] rel.data then rel
  else if dir = "" then rel
  else if dir.data.getLast? = some '/' then dir ++ rel
  else dir ++ "/" ++ rel

/-- `check_file_condition`: existence, then size floor (the spec's
`min_size` falling back to the passed default), then required substrings. -/
def check_file_condition (env : CheckEnv) (fileSpec : FileSpec)
    (projectDir : String) (defaultMinSize : ℕ) : CheckResult :=
  let relPath := fileSpec.path
  let fullPath := pathJoin projectDir relPath
  let minSize := fileSpec.min_size.getD defaultMinSize
  let contains := fileSpec.contains
  let descr := "文件: " ++ relPath
  match env.fs fullPath with
  | none =>
    { check_type := "file", description := descr, passed := false,
      details := "文件不存在" }
  | some data =>
    if data.size < minSize then
      { check_type := "file", description := descr, passed := false,
        details := "文件大小不足" }
    else if contains ≠ [] ∧
        (contains.filter (fun kw => ! chContains data.content.data kw.data)) ≠ [] then
      { check_type := "file", description := descr, passed := false,
        details := "缺少关键词" }
    else
      { check_type := "file", description := descr, passed := true,
        details := "存在" }

/-- `check_glob_condition`: count the regular files among the matches that
meet the per-file size floor. -/
def check_glob_condition (env : CheckEnv) (globSpec : GlobSpec)
    (projectDir : String) (defaultMinSize : ℕ) : CheckResult :=
  let pattern := globSpec.pattern
  let minCount := globSpec.min_count
  let minFileSize := globSpec.min_file_size.getD defaultMinSize
  let fullPattern := pathJoin projectDir pattern
  let globbed := env.globMatches fullPattern
  let validFiles := globbed.filter (fun m =>
    m.isFile && match m.size with
                | some s => s ≥ minFileSize
                | none => false)
  let descr := "Glob: " ++ pattern
  if validFiles.length < minCount then
    { check_type := "glob", description := descr, passed := false,
      details := "文件数量不足" }
  else
    { check_type := "glob", description := descr, passed := true,
      details := "文件数量满足" }

/-- Python `str.replace` for a non-empty pattern, on character lists. -/
def replaceSub (pat rep : List Char) : List Char → List Char
  | [] => []
  | c :: rest =>
    if pat ≠ [] ∧ chStarts pat (c :: rest) then
      rep ++ replaceSub pat rep (rest.drop (pat.length - 1))
    else c :: replaceSub pat rep rest
termination_by l => l.length
decreasing_by
  · simp only [List.length_drop, List.length_cons]
    omega
  · simp

/-- `{project_dir}` placeholder expansion (Python `str.replace`). -/
def expandProjectDir (cmd projectDir : String) : String :=
  String.mk (replaceSub "{project_dir}".data projectDir.data cmd.data)

/-- `check_command_condition`: pass iff the exit code equals `expect_exit`;
timeouts and exceptions fail. -/
def check_command_condition (env : CheckEnv) (cmdSpec : CmdSpec)
    (projectDir : String) : CheckResult :=
  let cmd := expandProjectDir cmdSpec.cmd projectDir
  let descr := "命令: " ++ cmd.take 50
  match env.runCommand cmd with
  | .finished exit stderrText =>
    if exit = cmdSpec.expect_exit then
      { check_type := "command", description := descr, passed := true,
        details := "exit ok" }
    else
      { check_type := "command", description := descr, passed := false,
        details := (stderrText.take 200) }
  | .timedOut =>
    { check_type := "command", description := descr, passed := false,
      details := "超时" }
  | .raised m =>
    { check_type := "command", description := descr, passed := false,
      details := m }

/-- `check_done_conditions`: an absent bundle passes trivially; otherwise
run every file, glob and command check and conjoin. The `default_min_size`
parameter defaults to 100 in the source. -/
def check_done_conditions (env : CheckEnv) (doneWhen : Option DoneWhen)
    (projectDir : String) (defaultMinSize : ℕ := 100) : DoneResult :=
  match doneWhen with
  | none => { passed := true, results := [], summary := "无完成条件" }
  | some dw =>
    let results :=
      dw.files.map (fun fs => check_file_condition env fs projectDir defaultMinSize) ++
      dw.files_glob.map (fun gs => check_glob_condition env gs projectDir defaultMinSize) ++
      dw.commands.map (fun cs => check_command_condition env cs projectDir)
    let allPassed := results.all (·.passed)
    { passed := allPassed, results := results,
      summary := if allPassed then "全部通过" else "有失败项" }

/-! ## `src/lib/task_orchestrator.py` -/

/-- `Task` (one manifest entry). -/
structure Task where
  id : String
  name : String := ""
  prompt : String := ""
  depends_on : List String := []
  done_when : Option DoneWhen := none
  on_complete : Option String := none
  requires_human_review : Bool := false
deriving DecidableEq, Repr

/-- `TasksConfig` (a parsed `tasks.yaml`). -/
structure TasksConfig where
  project_name : String := ""
  project_dir : String := ""
  description : String := ""
  enabled : Bool := true
  priority : Int := 1
  defaults : List (String × ℕ) := []
  tasks : List Task := []
deriving DecidableEq, Repr

/-- `TasksConfig.get_default`. -/
def TasksConfig.get_default (tc : TasksConfig) (key : String)
    (fallback : ℕ) : ℕ :=
  (mapGet tc.defaults key).getD fallback

/-- The per-project task-state dictionary. -/
abbrev StateMap := List (String × TaskStateInfo)

/-- The `task_map = {t.id: t for t in tasks}` dictionary: on duplicate ids
the later task wins, as in a Python dict comprehension. -/
def taskLookup (tasks : List Task) (id : String) : Option Task :=
  tasks.reverse.find? (fun t => t.id = id)

/-- The state of the cycle-detection DFS: the colour dictionary
(0 = WHITE, 1 = GRAY, 2 = BLACK) and the current path. -/
structure DfsSt where
  color : List (String × ℕ)
  path : List String
deriving DecidableEq, Repr

/-- Colour lookup (`color[task_id]`; only queried for existing ids, which
always have an entry). -/
def colorOf (st : DfsSt) (x : String) : ℕ :=
  (mapGet st.color x).getD 0

/-- Colour update. -/
def setColor (st : DfsSt) (x : String) (c : ℕ) : DfsSt :=
  { st with color := mapSet st.color x c }

/-- One iteration of the `for dep_id in task.depends_on` loop inside
`dfs`: the loop returns on the first cycle found, so a found cycle
absorbs the remaining iterations. -/
def depStep (visit : String → DfsSt → Option (List String) × DfsSt)
    (acc : Option (List String) × DfsSt) (d : String) :
    Option (List String) × DfsSt :=
  match acc with
  | (some c, st) => (some c, st)
  | (none, st) => visit d st

/-- The recursive `dfs` of `detect_cyclic_dependencies`.  `fuel` bounds the
recursion depth; `detect_cyclic_dependencies` passes enough fuel that it is
never exhausted (`visitOK_all` below shows one unit per newly visited
node suffices). -/
def dfsVisit (tasks : List Task) : ℕ → String → DfsSt →
    Option (List String) × DfsSt
  | 0 => fun _ st => (none, st)
  | fuel + 1 => fun id st =>
    match taskLookup tasks id with
    | none => (none, st)
    | some t =>
      if colorOf st id = 1 then
        (some ((st.path.drop (st.path.indexOf id)) ++ [id]), st)
      else if colorOf st id = 2 then
        (none, st)
      else
        let st1 := setColor st id 1
        let st2 := { st1 with path := st1.path ++ [id] }
        match t.depends_on.foldl (depStep (dfsVisit tasks fuel)) (none, st2) with
        | (some c, st3) => (some c, st3)
        | (none, st3) =>
          let st4 := { st3 with path := st3.path.dropLast }
          (none, setColor st4 id 2)

/-- The initial colour dictionary: one WHITE entry per task id (Python
dict keys are unique; first-seen insertion order). -/
def detectInit (tasks : List Task) : DfsSt :=
  ⟨((tasks.map (·.id)).dedup).map (fun i => (i, 0)), []⟩

/-- The fuel `detect_cyclic_dependencies` hands to each `dfs` call. -/
def detectFuel (tasks : List Task) : ℕ := tasks.length + 1

/-- The `for task in tasks` loop of `detect_cyclic_dependencies`. -/
def detectTop (tasks : List Task) : List Task → DfsSt → Option (List String)
  | [], _ => none
  | t :: ts, st =>
    if colorOf st t.id = 0 then
      match dfsVisit tasks (detectFuel tasks) t.id st with
      | (some c, _) => some c
      | (none, st1) => detectTop tasks ts st1
    else detectTop tasks ts st

/-- `detect_cyclic_dependencies`: three-colour DFS over the dependency
graph; `some cycle` when a cycle is found, `none` otherwise. -/
def detect_cyclic_dependencies (tasks : List Task) : Option (List String) :=
  detectTop tasks tasks (detectInit tasks)

/-- The dependency edge relation the DFS explores: task `a` (under the
last-wins id dictionary) lists `b`, and `b` is itself a manifest id
(dependencies on unknown ids are ignored by the DFS). -/
def Edge (tasks : List Task) (a b : String) : Prop :=
  ∃ t, taskLookup tasks a = some t ∧ b ∈ t.depends_on ∧
    (taskLookup tasks b).isSome

/-- The dependency graph contains a cycle: some id reaches itself in one
or more edges. -/
def HasCycle (tasks : List Task) : Prop :=
  ∃ a, Relation.TransGen (Edge tasks) a a

/-- One iteration of the `for task in tasks` loop of `get_ready_tasks`. -/
def readyStep (acc : List Task × StateMap) (task : Task) :
    List Task × StateMap :=
  let (ready, states) := acc
  let (state, states) :=
    match mapGet states task.id with
    | some s => (s, states)
    | none =>
      let s : TaskStateInfo := { status := "PENDING" }
      (s, mapSet states task.id s)
  if state.status ≠ "PENDING" then (ready, states)
  else
    let depsMet := task.depends_on.all (fun depId =>
      match mapGet states depId with
      | some depState => depState.status = "COMPLETED"
      | none => false)
    if depsMet then (ready ++ [task], states) else (ready, states)

/-- `get_ready_tasks`: the PENDING tasks whose dependencies are all
COMPLETED, in declaration order; missing state entries are created as
PENDING (mutating the dictionary). -/
def get_ready_tasks (tasks : List Task) (states : StateMap) :
    List Task × StateMap :=
  tasks.foldl readyStep ([], states)

/-- `build_prompt`: progress header, context bullets from completed
dependencies, the task header and its prompt body. -/
def build_prompt (task : Task) (states : StateMap) (tasks : List Task) :
    String :=
  let completedCount := (states.filter (fun kv => kv.2.status = "COMPLETED")).length
  let header := s!"## 当前进度: {completedCount}/{tasks.length} 任务已完成\n"
  let contextItems := task.depends_on.filterMap (fun depId =>
    match mapGet states depId with
    | some depState =>
      match depState.codex_summary with
      | some summary =>
        let depName := match (tasks.find? (fun t => t.id = depId)) with
                       | some dt => dt.name
                       | none => depId
        some ("- " ++ depName ++ ": " ++ summary)
      | none => none
    | none => none)
  let middle := if contextItems ≠ [] then
      ["## 已完成的前置工作\n", String.intercalate "\n" contextItems, "\n"]
    else []
  String.intercalate "\n"
    ([header] ++ middle ++ [s!"## 当前任务: {task.name}\n", task.prompt])

/-- `mark_task_complete`. -/
def mark_task_complete (taskId : String) (states : StateMap)
    (codexSummary : Option String) (nowStr : String) : StateMap :=
  let s := (mapGet states taskId).getD { status := "PENDING" }
  let s := { s with status := "COMPLETED", completed_at := some nowStr }
  let s := match codexSummary with
           | some summary => if summary ≠ "" then { s with codex_summary := some summary } else s
           | none => s
  mapSet states taskId s

/-- `get_all_completed`. -/
def get_all_completed (tasks : List Task) (states : StateMap) : Bool :=
  tasks.all (fun t =>
    match mapGet states t.id with
    | some s => s.status = "COMPLETED"
    | none => false)

/-- `dispatch_next_task`: cycle check first (raising, modelled as
`Except.error`, leaves the state map untouched); then optionally complete
the current task, compute the ready set, and either report none, block a
human-review task, or mark the first ready task RUNNING and build its
prompt. -/
def dispatch_next_task (tasks : List Task) (states : StateMap)
    (currentTaskId : Option String) (codexSummary : Option String)
    (nowStr : String) :
    Except (List String) (Option Task × Option String) × StateMap :=
  match detect_cyclic_dependencies tasks with
  | some cycle => (.error cycle, states)
  | none =>
    let states := match currentTaskId with
                  | some id => mark_task_complete id states codexSummary nowStr
                  | none => states
    let (readyTasks, states) := get_ready_tasks tasks states
    match readyTasks with
    | [] => (.ok (none, none), states)
    | nextTask :: _ =>
      if nextTask.requires_human_review then
        let s := (mapGet states nextTask.id).getD { status := "PENDING" }
        let states := mapSet states nextTask.id { s with status := "BLOCKED" }
        (.ok (some nextTask, none), states)
      else
        let prompt := build_prompt nextTask states tasks
        let s := (mapGet states nextTask.id).getD { status := "PENDING" }
        let s := { s with status := "RUNNING", started_at := some nowStr,
                          sends := s.sends + 1, last_send_at := some nowStr }
        let states := mapSet states nextTask.id s
        (.ok (some nextTask, some prompt), states)

/-- `get_task_by_id`. -/
def get_task_by_id (tasks : List Task) (taskId : String) : Option Task :=
  tasks.find? (fun t => t.id = taskId)

/-! ## `src/lib/scheduler.py` -/

/-- `ProjectLifecycle`. -/
inductive ProjectLifecycle where
  | disabled
  | enabled
  | running
  | paused
  | completed
  | error
deriving DecidableEq, Repr

/-- `ProjectInfo`.  Of the free-form `overrides` dictionary only the two
keys the sources read (`cooldown`, `max_daily_sends`) are modelled. -/
structure ProjectInfo where
  name : String
  dir : String
  enabled : Bool := true
  priority : Int := 1
  lifecycle : ProjectLifecycle := .enabled
  tasks_config : Option TasksConfig := none
  description : String := ""
  overrideCooldown : Option ℚ := none
  overrideMaxDaily : Option ℕ := none
deriving DecidableEq, Repr

/-- `get_override('cooldown', default)`. -/
def ProjectInfo.cooldownOverride (p : ProjectInfo) (default : ℚ) : ℚ :=
  p.overrideCooldown.getD default

/-- `get_override('max_daily_sends', default)`. -/
def ProjectInfo.maxDailyOverride (p : ProjectInfo) (default : ℕ) : ℕ :=
  p.overrideMaxDaily.getD default

/-- The configuration keys the tick engine reads (`config.get` with the
defaults applied at each use site; `none` = key absent). -/
structure Config where
  cooldown : Option ℚ := none
  max_daily_sends : Option ℕ := none
  max_daily_sends_total : Option ℕ := none
  max_consecutive_failures : Option ℕ := none
  loop_detection_threshold : Option ℕ := none
  max_done_age : Option ℚ := none
  user_wait_timeout : Option ℚ := none
  schedulerStrategy : Option String := none
  schedulerMaxSendsPerTick : Option ℕ := none
  schedulerInterProjectDelay : Option ℚ := none

/-- The single filter iteration of `schedule_projects` for one project:
`none` when the project is dropped, otherwise its sort key; the state map
is threaded because `get_project_state` and `check_daily_limit` mutate it. -/
def scheduleFilterStep (sessions : List (String × SessionInfo))
    (config : Config) (now : ℚ) (today : String) (state : GlobalState)
    (project : ProjectInfo) : Option ℚ × GlobalState :=
  if project.lifecycle ≠ .enabled ∧ project.lifecycle ≠ .running then
    (none, state)
  else if ¬ project.enabled then
    (none, state)
  else if (mapGet sessions project.dir).isNone then
    (none, state)
  else
    let (projState, state) := get_project_state state project.dir
    let cooldown := project.cooldownOverride (config.cooldown.getD 120)
    if check_cooldown now projState cooldown then
      (none, state)
    else
      let maxDaily := project.maxDailyOverride (config.max_daily_sends.getD 50)
      let (capped, projState1) := check_daily_limit today projState maxDaily
      let state := putProj state project.dir projState1
      if capped then
        (none, state)
      else
        let strategy := config.schedulerStrategy.getD "round-robin"
        let sortKey : ℚ :=
          if strategy = "priority" then (project.priority : ℚ)
          else match projState1.last_send_at with
               | some t => t
               | none => 0
        (some sortKey, state)

/-- The filter loop of `schedule_projects`, iterating
`scheduleFilterStep` over the project list while threading the state. -/
def scheduleFilterLoop (sessions : List (String × SessionInfo))
    (config : Config) (now : ℚ) (today : String) :
    List ProjectInfo → List (ProjectInfo × ℚ) × GlobalState →
    List (ProjectInfo × ℚ) × GlobalState
  | [], acc => acc
  | p :: ps, (actionable, state) =>
    match scheduleFilterStep sessions config now today state p with
    | (some key, state) =>
      scheduleFilterLoop sessions config now today ps
        (actionable ++ [(p, key)], state)
    | (none, state) =>
      scheduleFilterLoop sessions config now today ps (actionable, state)

/-- The filter loop of `schedule_projects`: the actionable projects with
their sort keys, in declaration order, plus the mutated state. -/
def scheduleFilter (projects : List ProjectInfo)
    (sessions : List (String × SessionInfo)) (config : Config)
    (now : ℚ) (today : String) (state : GlobalState) :
    List (ProjectInfo × ℚ) × GlobalState :=
  scheduleFilterLoop sessions config now today projects ([], state)

/-- Stable insertion of one keyed project into an already sorted list
(placed after all entries with a key ≤ its own). -/
def sortInsert (x : ProjectInfo × ℚ) :
    List (ProjectInfo × ℚ) → List (ProjectInfo × ℚ)
  | [] => [x]
  | y :: ys => if y.2 ≤ x.2 then y :: sortInsert x ys else x :: y :: ys

/-- Python `list.sort(key=...)`: a stable sort by the numeric key (both
strategies sort ascending by the key computed in the filter loop). -/
def sortByKey (l : List (ProjectInfo × ℚ)) : List (ProjectInfo × ℚ) :=
  l.foldr sortInsert []

/-- `schedule_projects`: filter, sort by strategy key, return the full
ordered actionable list (the driver truncates). -/
def schedule_projects (projects : List ProjectInfo)
    (sessions : List (String × SessionInfo)) (config : Config)
    (now : ℚ) (today : String) (state : GlobalState) :
    List ProjectInfo × GlobalState :=
  let (actionable, state) := scheduleFilter projects sessions config now today state
  ((sortByKey actionable).map (·.1), state)

/-- Python `list.remove` guarded by an `in` check: drop the first
occurrence, if any. -/
def removeFirst (l : List String) (x : String) : List String :=
  match l with
  | [] => []
  | y :: ys => if y = x then ys else y :: removeFirst ys x

/-- `update_project_lifecycle`: set the in-memory lifecycle and maintain
the `active_projects` / `paused_projects` lists; returns the updated
project and global state. -/
def update_project_lifecycle (project : ProjectInfo)
    (newLifecycle : ProjectLifecycle) (state : GlobalState) :
    ProjectInfo × GlobalState :=
  let project1 := { project with lifecycle := newLifecycle }
  let active := removeFirst state.active_projects project.name
  let paused := removeFirst state.paused_projects project.name
  let active :=
    if (newLifecycle = .enabled ∨ newLifecycle = .running) ∧
        project.name ∉ active then
      active ++ [project.name]
    else active
  let paused :=
    if newLifecycle = .paused ∧ project.name ∉ paused then
      paused ++ [project.name]
    else paused
  (project1, { state with active_projects := active, paused_projects := paused })

/-- `update_project_send_order`: move the project to the end of the
round-robin list and keep at most 100 entries. -/
def update_project_send_order (projectName : String) (state : GlobalState) :
    GlobalState :=
  let order := (removeFirst state.project_send_order projectName) ++ [projectName]
  let order := if order.length > 100 then order.drop (order.length - 100) else order
  { state with project_send_order := order }

/-! ## MD5 (`hashlib.md5(...).hexdigest()` used by `compute_output_hash`)

A complete executable MD5 over natural numbers reduced mod `2^32`. -/

/-- `2^32`, the word modulus. -/
def M32 : ℕ := 4294967296

/-- UTF-8 encoding of one character (Python `str.encode()`). -/
def utf8EncodeChar (c : Char) : List ℕ :=
  let n := c.toNat
  if n < 128 then [n]
  else if n < 2048 then [192 + n / 64, 128 + n % 64]
  else if n < 65536 then
    [224 + n / 4096, 128 + (n / 64) % 64, 128 + n % 64]
  else
    [240 + n / 262144, 128 + (n / 4096) % 64, 128 + (n / 64) % 64, 128 + n % 64]

/-- UTF-8 bytes of a string. -/
def utf8Bytes (s : List Char) : List ℕ := s.flatMap utf8EncodeChar

/-- `count` little-endian bytes of `n`. -/
def leBytes (n count : ℕ) : List ℕ :=
  (List.range count).map (fun i => (n / 256 ^ i) % 256)

/-- MD5 padding: `0x80`, zeros to 56 mod 64, then the 64-bit LE bit length. -/
def md5pad (msg : List ℕ) : List ℕ :=
  let len := msg.length
  let zeros := (56 + 64 - ((len + 1) % 64)) % 64
  msg ++ [128] ++ List.replicate zeros 0 ++ leBytes ((len * 8) % 2 ^ 64) 8

/-- Split into 64-byte chunks. -/
def chunksOf64 (l : List ℕ) : List (List ℕ) :=
  if h : l = [] then []
  else l.take 64 :: chunksOf64 (l.drop 64)
termination_by l.length
decreasing_by
  simp only [List.length_drop]
  exact Nat.sub_lt (List.length_pos.mpr h) (by norm_num)

/-- The 64 MD5 sine-derived round constants. -/
def md5K (i : ℕ) : ℕ :=
  [0xd76aa478, 0xe8c7b756, 0x242070db, 0xc1bdceee,
   0xf57c0faf, 0x4787c62a, 0xa8304613, 0xfd469501,
   0x698098d8, 0x8b44f7af, 0xffff5bb1, 0x895cd7be,
   0x6b901122, 0xfd987193, 0xa679438e, 0x49b40821,
   0xf61e2562, 0xc040b340, 0x265e5a51, 0xe9b6c7aa,
   0xd62f105d, 0x02441453, 0xd8a1e681, 0xe7d3fbc8,
   0x21e1cde6, 0xc33707d6, 0xf4d50d87, 0x455a14ed,
   0xa9e3e905, 0xfcefa3f8, 0x676f02d9, 0x8d2a4c8a,
   0xfffa3942, 0x8771f681, 0x6d9d6122, 0xfde5380c,
   0xa4beea44, 0x4bdecfa9, 0xf6bb4b60, 0xbebfbc70,
   0x289b7ec6, 0xeaa127fa, 0xd4ef3085, 0x04881d05,
   0xd9d4d039, 0xe6db99e5, 0x1fa27cf8, 0xc4ac5665,
   0xf4292244, 0x432aff97, 0xab9423a7, 0xfc93a039,
   0x655b59c3, 0x8f0ccc92, 0xffeff47d, 0x85845dd1,
   0x6fa87e4f, 0xfe2ce6e0, 0xa3014314, 0x4e0811a1,
   0xf7537e82, 0xbd3af235, 0x2ad7d2bb, 0xeb86d391].getD i 0

/-- The per-round left-rotation amounts. -/
def md5S (i : ℕ) : ℕ :=
  [7, 12, 17, 22, 7, 12, 17, 22, 7, 12, 17, 22, 7, 12, 17, 22,
   5, 9, 14, 20, 5, 9, 14, 20, 5, 9, 14, 20, 5, 9, 14, 20,
   4, 11, 16, 23, 4, 11, 16, 23, 4, 11, 16, 23, 4, 11, 16, 23,
   6, 10, 15, 21, 6, 10, 15, 21, 6, 10, 15, 21, 6, 10, 15, 21].getD i 0

/-- 32-bit left rotation. -/
def rotl32 (x s : ℕ) : ℕ :=
  ((x * 2 ^ s) % M32) + (x % M32) / 2 ^ (32 - s)

/-- 32-bit bitwise complement. -/
def bnot32 (x : ℕ) : ℕ := (M32 - 1) ^^^ x

/-- One of the 64 MD5 rounds applied to `(a, b, c, d)`. -/
def md5Round (M : ℕ → ℕ) (st : ℕ × ℕ × ℕ × ℕ) (i : ℕ) : ℕ × ℕ × ℕ × ℕ :=
  let (a, b, c, d) := st
  let (f, g) :=
    if i < 16 then ((b &&& c) ||| (bnot32 b &&& d), i)
    else if i < 32 then ((d &&& b) ||| (bnot32 d &&& c), (5 * i + 1) % 16)
    else if i < 48 then (b ^^^ c ^^^ d, (3 * i + 5) % 16)
    else (c ^^^ (b ||| bnot32 d), (7 * i) % 16)
  let f := (f + a + md5K i + M g) % M32
  (d, (b + rotl32 f (md5S i)) % M32, b, c)

/-- Process one 64-byte chunk. -/
def md5Chunk (st : ℕ × ℕ × ℕ × ℕ) (chunk : List ℕ) : ℕ × ℕ × ℕ × ℕ :=
  let M := fun g => chunk.getD (4 * g) 0 + 256 * chunk.getD (4 * g + 1) 0 +
    65536 * chunk.getD (4 * g + 2) 0 + 16777216 * chunk.getD (4 * g + 3) 0
  let (a0, b0, c0, d0) := st
  let (a, b, c, d) := (List.range 64).foldl (md5Round M) st
  ((a0 + a) % M32, (b0 + b) % M32, (c0 + c) % M32, (d0 + d) % M32)

/-- Lower-case hex digit. -/
def hexDigit (n : ℕ) : Char := "0123456789abcdef".data.getD n '0'

/-- Two hex digits of a byte. -/
def byteHex (b : ℕ) : List Char := [hexDigit (b / 16), hexDigit (b % 16)]

/-- `hashlib.md5(s.encode()).hexdigest()`. -/
def md5hex (s : String) : String :=
  let padded := md5pad (utf8Bytes s.data)
  let (a, b, c, d) := (chunksOf64 padded).foldl md5Chunk
    (0x67452301, 0xefcdab89, 0x98badcfe, 0x10325476)
  String.mk (([a, b, c, d].map (fun w => (leBytes w 4).flatMap byteHex)).flatten)

/-! ## `src/autopilot.py` -/

/-- `compute_output_hash`: MD5 of the first 500 characters; `None`/empty
text yields `None`. -/
def compute_output_hash (text : Option String) : Option String :=
  match text with
  | none => none
  | some t => if t = "" then none else some (md5hex (t.take 500))

/-- `os.path.basename` (POSIX): the part after the final `/`. -/
def basename (p : String) : String :=
  match (p.splitOn "/").getLast? with
  | some b => b
  | none => p

/-- Python `split('\\n\\n')` on character lists (leftmost-first scan). -/
def splitParas : List Char → List Char → List (List Char)
  | [], acc => [acc.reverse]
  | '\n' :: '\n' :: rest, acc => acc.reverse :: splitParas rest []
  | c :: rest, acc => splitParas rest (c :: acc)

/-- `extract_codex_summary`: last non-code paragraph, truncated. -/
def extract_codex_summary (lastMessage : String) (maxLength : ℕ := 200) :
    String :=
  if lastMessage = "" then ""
  else
    let paragraphs := ((splitParas lastMessage.data []).map
      (fun p => String.mk (pyStrip p))).filter (fun p => p ≠ "")
    match paragraphs with
    | [] => lastMessage.take maxLength
    | _ =>
      match paragraphs.reverse.find? (fun para =>
          ! chStarts "```".data para.data && ! chStarts "    ".data para.data) with
      | some para =>
        para.take maxLength ++ (if para.length > maxLength then "..." else "")
      | none => (paragraphs.getLast! ).take maxLength

/-- Observable actions of one tick, in program order. -/
inductive Event where
  | lifecycleSet (project : String) (lc : ProjectLifecycle)
  | notified (kind : String) (project : String)
  | sent (project : String) (reply : String)
deriving DecidableEq, Repr

/-- The external world one `process_project` call interacts with: the
session map entry and clocks, the two transcript tail readers, the
`tasks.yaml` fallback lookup, the done-checker environment, the transport
send result, and the reply strings produced by the (out-of-claim-scope)
reply generator. -/
structure ProjEnv where
  now : ℚ
  today : String
  nowStr : String
  lastFromUser : Bool
  lastMessage : Option String
  foundTasksYaml : Option TasksConfig := none
  checkEnv : CheckEnv
  sendOk : Bool := true
  notifierPresent : Bool := true
  genReply : Intent → String := fun _ => "reply"
  doneFailedReply : String := "done-failed"
  nextTaskReply : String → String := fun p => p
  humanReviewNotice : String := "review required"

/-- `process_project_with_tasks` (Phase 2 task-orchestration path).
Returns (should-send, task-reply), the updated global state, and the
notifications emitted. -/
def process_project_with_tasks (projectDir : String) (tc : TasksConfig)
    (state : GlobalState) (lastMessage : String) (intent : Intent)
    (env : ProjEnv) : (Bool × Option String) × GlobalState × List Event :=
  let projectName := if tc.project_name ≠ "" then tc.project_name
                     else basename projectDir
  let (ps, state) := get_project_state state projectDir
  let ps :=
    if ps.task_states = [] then
      { ps with task_states :=
          (tc.tasks.foldl (fun m task => mapSet m task.id { status := "PENDING" })
            ps.task_states) }
    else ps
  let state := putProj state projectDir ps
  let currentTask := match ps.current_task with
                     | some id => get_task_by_id tc.tasks id
                     | none => none
  match currentTask with
  | none =>
    match dispatch_next_task tc.tasks ps.task_states none none env.nowStr with
    | (.error _, ts) =>
      let state := putProj state projectDir { ps with task_states := ts }
      ((false, none), state,
        if env.notifierPresent then [.notified "cyclic" projectName] else [])
    | (.ok (none, _), ts) =>
      let ps := { ps with task_states := ts }
      let state := putProj state projectDir ps
      if get_all_completed tc.tasks ps.task_states then
        ((false, none), state,
          if env.notifierPresent then [.notified "all-complete" projectName] else [])
      else ((false, none), state, [])
    | (.ok (some nextTask, none), ts) =>
      let state := putProj state projectDir { ps with task_states := ts }
      ((false, none), state,
        if env.notifierPresent then [.notified "human-review" projectName] else [])
    | (.ok (some nextTask, some prompt), ts) =>
      let ps := { ps with task_states := ts, current_task := some nextTask.id }
      (( true, some prompt), putProj state projectDir ps, [])
  | some currentTask =>
    if intent = .task_complete then
      let defaultMinSize := tc.get_default "min_file_size" 100
      let doneResult := check_done_conditions env.checkEnv currentTask.done_when
        projectDir defaultMinSize
      if doneResult.passed then
        let codexSummary := extract_codex_summary lastMessage
        let ts := mark_task_complete (ps.current_task.getD "") ps.task_states
          (some codexSummary) env.nowStr
        let ps := { ps with task_states := ts }
        match dispatch_next_task tc.tasks ps.task_states none none env.nowStr with
        | (.error _, ts) =>
          ((false, none), putProj state projectDir { ps with task_states := ts }, [])
        | (.ok (none, _), ts) =>
          let ps := { ps with task_states := ts }
          if get_all_completed tc.tasks ps.task_states then
            let ps := { ps with current_task := none }
            ((false, none), putProj state projectDir ps,
              if env.notifierPresent then [.notified "all-complete" projectName] else [])
          else ((false, none), putProj state projectDir ps, [])
        | (.ok (some nextTask, none), ts) =>
          let ps := { ps with task_states := ts, current_task := some nextTask.id }
          ((false, none), putProj state projectDir ps,
            if env.notifierPresent then [.notified "human-review" projectName] else [])
        | (.ok (some nextTask, some prompt), ts) =>
          let reply := env.nextTaskReply prompt
          let ps := { ps with task_states := ts, current_task := some nextTask.id }
          ((true, some reply), putProj state projectDir ps,
            if env.notifierPresent then [.notified "task-advance" projectName] else [])
      else
        let reply := env.doneFailedReply
        let ts := match ps.current_task with
          | some cid =>
            match mapGet ps.task_states cid with
            | some taskState =>
              mapSet ps.task_states cid
                { taskState with last_codex_output := some (lastMessage.take 500) }
            | none => ps.task_states
          | none => ps.task_states
        ((true, some reply), putProj state projectDir { ps with task_states := ts }, [])
    else
      ((true, none), state, [])

/-- `process_project`: the per-project tick path (cooldown, caps, session
gates, user-wait, loop detection, intent, task path, send, bookkeeping).
Returns whether a send happened, the (possibly lifecycle-updated) project,
the new global state, and the events emitted, in order. -/
def process_project (project : ProjectInfo) (config : Config)
    (state : GlobalState) (sessions : List (String × SessionInfo))
    (env : ProjEnv) : Bool × ProjectInfo × GlobalState × List Event :=
  let projectName := project.name
  let projectDir := project.dir
  let gps := get_project_state state projectDir
  let ps := gps.1
  let state := gps.2
  let upd :=
    if project.lifecycle = .enabled then
      let us := update_project_lifecycle project .running state
      (us.1, us.2, [Event.lifecycleSet projectName .running])
    else (project, state, ([] : List Event))
  let project := upd.1
  let state := upd.2.1
  let ev0 := upd.2.2
  let cooldown := project.cooldownOverride (config.cooldown.getD 120)
  if check_cooldown env.now ps cooldown then (false, project, state, ev0)
  else
    let maxDaily := project.maxDailyOverride (config.max_daily_sends.getD 50)
    let cdl := check_daily_limit env.today ps maxDaily
    let capped := cdl.1
    let ps := cdl.2
    let state := putProj state projectDir ps
    if capped then (false, project, state, ev0)
    else
      let maxTotal := config.max_daily_sends_total.getD 200
      if get_total_daily_sends env.today state ≥ maxTotal then
        (false, project, state, ev0)
      else
        match mapGet sessions projectDir with
        | none => (false, project, state, ev0)
        | some session =>
          let age := age_seconds env.now session.mtime
          let sessionState := get_session_state age
          if sessionState = .active then (false, project, state, ev0)
          else
            let maxDoneAge := config.max_done_age.getD 7200
            if sessionState = .done ∧ age > maxDoneAge then
              (false, project, state, ev0)
            else
              let userWaitTimeout := config.user_wait_timeout.getD 600
              if env.lastFromUser ∧ age < userWaitTimeout then
                (false, project, state, ev0)
              else
                let ps := if env.lastFromUser then
                    { ps with last_output_hash := none, loop_count := 0 }
                  else ps
                let state := putProj state projectDir ps
                match env.lastMessage with
                | none => (false, project, state, ev0)
                | some lastMessage =>
                  if lastMessage = "" then (false, project, state, ev0)
                  else
                    let outputHash := compute_output_hash (some lastMessage)
                    let loopThreshold := config.loop_detection_threshold.getD 3
                    if ps.last_output_hash = outputHash ∧ ps.loop_count > 0 then
                      if ps.loop_count ≥ loopThreshold then
                        let state := record_history state env.nowStr
                          "loop_detected" (some projectName) none none true
                          (some "loop")
                        let ev1 := if env.notifierPresent then
                            [Event.notified "loop-error" projectName] else []
                        let (project, state) :=
                          update_project_lifecycle project .error state
                        (false, project, state,
                          ev0 ++ ev1 ++ [Event.lifecycleSet projectName .error])
                      else (false, project, state, ev0)
                    else
                      let intent := analyze_intent (some lastMessage)
                      let tasksConfig :=
                        match project.tasks_config with
                        | some tc => some tc
                        | none => env.foundTasksYaml
                      let (proceed, reply, state, ev1) :=
                        match tasksConfig with
                        | some tc =>
                          if tc.tasks ≠ [] then
                            let ((shouldSend, taskReply), state, evT) :=
                              process_project_with_tasks projectDir tc state
                                lastMessage intent env
                            (shouldSend, taskReply, state, evT)
                          else (true, none, state, [])
                        | none => (true, none, state, [])
                      if ¬ proceed then (false, project, state, ev0 ++ ev1)
                      else
                        let reply := match reply with
                                     | some r => r
                                     | none => env.genReply intent
                        let ps := (mapGet state.projects projectDir).getD {}
                        if ¬ env.sendOk then
                          let ps := { ps with consecutive_failures :=
                            ps.consecutive_failures + 1 }
                          let state := record_history (putProj state projectDir ps)
                            env.nowStr "send_failed" (some projectName) none
                            (some reply) false (some "send failed")
                          let maxFailures := config.max_consecutive_failures.getD 5
                          if ps.consecutive_failures ≥ maxFailures then
                            let ev2 := if env.notifierPresent then
                                [Event.notified "failure-error" projectName] else []
                            let (project, state) :=
                              update_project_lifecycle project .error state
                            (false, project, state,
                              ev0 ++ ev1 ++ ev2 ++ [Event.lifecycleSet projectName .error])
                          else (false, project, state, ev0 ++ ev1)
                        else
                          let ps := { ps with consecutive_failures := 0 }
                          let ps := increment_send_count env.now env.today ps
                          let state := record_history (putProj state projectDir ps)
                            env.nowStr "send" (some projectName) none (some reply)
                            true none
                          let ps :=
                            if ps.last_output_hash = outputHash then
                              { ps with loop_count := ps.loop_count + 1 }
                            else
                              { ps with last_output_hash := outputHash,
                                        loop_count := 1 }
                          let state := putProj state projectDir ps
                          let state := update_project_send_order projectName state
                          let ps :=
                            if tasksConfig.isSome then
                              match ps.current_task with
                              | some curId =>
                                match mapGet ps.task_states curId with
                                | some taskState =>
                                  { ps with task_states :=
                                      (mapSet ps.task_states curId
                                        { taskState with
                                          sends := taskState.sends + 1,
                                          last_send_at := some env.nowStr }) }
                                | none => ps
                              | none => ps
                            else ps
                          let state := putProj state projectDir ps
                          let ev2 := if env.notifierPresent then
                              [Event.notified "send" projectName] else []
                          (true, project, state,
                            ev0 ++ ev1 ++ ev2 ++ [Event.sent projectName reply])

/-- The inputs `main` obtains from the outside world at the start of a
tick: the loaded configuration (`none` models a missing, unreadable or
empty `config.yaml`, for which `load_config` returns a falsy `{}`), the
preflight result, the state loaded from disk, the project registry and
the discovered sessions. -/
structure MainEnv where
  configLoaded : Option Config
  preflightOk : Bool
  loadedState : GlobalState
  projects : List ProjectInfo
  sessions : List (String × SessionInfo)
  now : ℚ
  today : String
  nowStr : String

/-- What a tick left behind: how many times `save_state` was called and
the state at exit. -/
structure MainResult where
  saves : ℕ
  finalState : GlobalState
deriving DecidableEq, Repr

/-- The per-project loop of `main`: honour `max_sends_per_tick` and the
global daily cap, run each project inside `try/except` (an exception is
caught, recorded in history, and the loop continues).  `runProject` is the
outcome of the `process_project` call for one project — `.ok sent` on
normal return, `.error msg` when it raised. -/
def mainLoop (config : Config) (env : MainEnv)
    (runProject : ProjectInfo → GlobalState → Except String (Bool × GlobalState)) :
    List ProjectInfo → ℕ → GlobalState → ℕ × GlobalState
  | [], sends, state => (sends, state)
  | p :: ps, sends, state =>
    let maxSendsPerTick := config.schedulerMaxSendsPerTick.getD 1
    if sends ≥ maxSendsPerTick then (sends, state)
    else
      let maxTotal := config.max_daily_sends_total.getD 200
      if get_total_daily_sends env.today state ≥ maxTotal then (sends, state)
      else
        match runProject p state with
        | .ok (sent, state) =>
          mainLoop config env runProject ps (if sent then sends + 1 else sends) state
        | .error e =>
          mainLoop config env runProject ps sends
            (record_history state env.nowStr "error" (some p.name) none none
              false (some e))

/-- `main`: one tick.  Aborts (without saving) when the configuration
cannot be loaded or preflight fails; otherwise stamps the tick, schedules,
processes the scheduled projects, and saves the state (`save_state` is
also called on the early no-projects / nothing-scheduled exits). -/
def main_tick (env : MainEnv)
    (runProject : ProjectInfo → GlobalState → Except String (Bool × GlobalState)) :
    MainResult :=
  match env.configLoaded with
  | none => { saves := 0, finalState := env.loadedState }
  | some config =>
    let state := env.loadedState
    let state := { state with last_tick_at := some env.nowStr }
    let state := if state.started_at = none then
        { state with started_at := some env.nowStr }
      else state
    if ¬ env.preflightOk then { saves := 0, finalState := state }
    else
      match env.projects with
      | [] => { saves := 1, finalState := state }
      | projects@(_ :: _) =>
        let (scheduled, state) :=
          schedule_projects projects env.sessions config env.now env.today state
        match scheduled with
        | [] => { saves := 1, finalState := state }
        | _ :: _ =>
          let (_, state) := mainLoop config env runProject scheduled 0 state
          { saves := 1, finalState := state }

/-! ## Helper predicates used by the theorems -/

/-- Is the operation a `rename`? -/
def FsOp.isRename : FsOp → Bool
  | .rename _ _ => true
  | _ => false

/-- Is the operation an `fsync`? -/
def FsOp.isFsync : FsOp → Bool
  | .fsync _ => true
  | _ => false

/-- Number of WHITE entries in a colour dictionary. -/
def whites (m : List (String × ℕ)) : ℕ :=
  (m.filter (fun kv => kv.2 = 0)).length

/-- The edge relation without the existence condition on the target
(used for path chains, whose last hop may still be under examination). -/
def EdgeLite (tasks : List Task) (a b : String) : Prop :=
  ∃ t, taskLookup tasks a = some t ∧ b ∈ t.depends_on

/-- Blacken order, newest first: every entry's dependencies that are
manifest ids were blackened strictly earlier (lie in the tail). -/
def LayeredR (tasks : List Task) : List String → Prop
  | [] => True
  | x :: rest => (∀ y, Edge tasks x y → y ∈ rest) ∧ LayeredR tasks rest

/-- The invariant the cycle-detection DFS maintains. -/
structure DInv (tasks : List Task) (st : DfsSt) : Prop where
  keys_eq : st.color.map Prod.fst = (tasks.map (·.id)).dedup
  color_le : ∀ x, colorOf st x ≤ 2
  gray_iff : ∀ x, colorOf st x = 1 ↔ x ∈ st.path
  path_nodup : st.path.Nodup
  path_mem : ∀ x ∈ st.path, (taskLookup tasks x).isSome
  path_chain : st.path.Chain' (EdgeLite tasks)
  black_layered : ∃ bl : List String, bl.Nodup ∧
    (∀ x, colorOf st x = 2 ↔ x ∈ bl) ∧ LayeredR tasks bl

/-- Post-condition of a completed (cycle-free) `dfs` call. -/
def VisitPost (tasks : List Task) (st st' : DfsSt) (id : String) : Prop :=
  DInv tasks st' ∧ st'.path = st.path ∧
  (∀ x, colorOf st x = 2 → colorOf st' x = 2) ∧
  ((taskLookup tasks id).isSome → colorOf st' id = 2) ∧
  whites st'.color ≤ whites st.color

/-- Post-condition of a completed (cycle-free) dependency loop. -/
def DepsPost (tasks : List Task) (st st' : DfsSt) (ds : List String) : Prop :=
  DInv tasks st' ∧ st'.path = st.path ∧
  (∀ x, colorOf st x = 2 → colorOf st' x = 2) ∧
  (∀ d ∈ ds, (taskLookup tasks d).isSome → colorOf st' d = 2) ∧
  whites st'.color ≤ whites st.color

/-- Soundness and completeness of one `dfs` call at a given fuel: under
the invariant, with fuel exceeding the number of WHITE entries, and the
visited id reachable from the end of the current path, a `some` result
means the graph has a cycle and a `none` result satisfies `VisitPost`. -/
def VisitOK (tasks : List Task) (fuel : ℕ) : Prop :=
  ∀ id st, DInv tasks st → whites st.color < fuel →
    (∀ last, st.path.getLast? = some last → EdgeLite tasks last id) →
    ∀ r st', dfsVisit tasks fuel id st = (r, st') →
      (r.isSome → HasCycle tasks) ∧ (r = none → VisitPost tasks st st' id)

/-- The corresponding statement for the dependency loop of `dfs`. -/
def DepsOK (tasks : List Task) (fuel : ℕ) : Prop :=
  ∀ ds st, DInv tasks st → whites st.color < fuel →
    (∀ d ∈ ds, ∀ last, st.path.getLast? = some last → EdgeLite tasks last d) →
    ∀ r st', ds.foldl (depStep (dfsVisit tasks fuel)) (none, st) = (r, st') →
      (r.isSome → HasCycle tasks) ∧ (r = none → DepsPost tasks st st' ds)

/-- Dependency lists with the ids unknown to the manifest removed (used
to state that cycle detection ignores unknown ids). -/
def stripUnknownDeps (tasks : List Task) : List Task :=
  tasks.map (fun t =>
    { t with depends_on :=
        t.depends_on.filter (fun d => (taskLookup tasks d).isSome) })

/-- The status `get_ready_tasks` sees for an id (missing entries are
created as PENDING). -/
def statusOf (states : StateMap) (id : String) : String :=
  match mapGet states id with
  | some s => s.status
  | none => "PENDING"

/-- A dependency counts as met only when its recorded status is COMPLETED. -/
def depCompleted (states : StateMap) (d : String) : Bool :=
  match mapGet states d with
  | some s => s.status = "COMPLETED"
  | none => false

/-- The state dictionary after one `get_ready_tasks` iteration has ensured
an entry for the iterated task's id (missing ids are inserted PENDING). -/
def readyInsert (sts : StateMap) (t : Task) : StateMap :=
  if (mapGet sts t.id).isSome then sts
  else mapSet sts t.id { status := "PENDING" }

/-- The pure per-project view used to state the scheduler filter: the
project's recorded state, defaulting to a fresh one. -/
def projView (state : GlobalState) (dir : String) : ProjectState :=
  (mapGet state.projects dir).getD {}

/-- A project's contribution to `get_total_daily_sends`. -/
def dailyContrib (today : String) (ps : ProjectState) : ℕ :=
  if ps.daily_sends_date = today then ps.daily_sends else 0

/-- The scheduler's drop condition, stated purely over the original
global state (the spec's filter list, minus the global daily cap). -/
def scheduleDropCond (sessions : List (String × SessionInfo))
    (config : Config) (now : ℚ) (today : String) (state : GlobalState)
    (p : ProjectInfo) : Prop :=
  (p.lifecycle ≠ .enabled ∧ p.lifecycle ≠ .running) ∨
  (¬ p.enabled) ∨
  (mapGet sessions p.dir = none) ∨
  (check_cooldown now (projView state p.dir)
    (p.cooldownOverride (config.cooldown.getD 120)) = true) ∨
  ((check_daily_limit today (projView state p.dir)
    (p.maxDailyOverride (config.max_daily_sends.getD 50))).1 = true)

/-! ## Concrete scenarios used by counterexamples and witnesses -/

/-- A trivial checker environment (empty filesystem). -/
def emptyCheckEnv : CheckEnv :=
  { fs := fun _ => none, globMatches := fun _ => [],
    runCommand := fun _ => .finished 0 "" }

/-- Scenario for C4: a project whose manifest declares no defaults. -/
def c4Tc : TasksConfig := { project_name := "p", tasks := [{ id := "t" }] }

/-- Scenario for C4: the file `out.txt` exists with size 1. -/
def c4Env : CheckEnv :=
  { fs := fun p => if p = "/proj/out.txt" then some ⟨1, "ok"⟩ else none,
    globMatches := fun _ => [], runCommand := fun _ => .finished 0 "" }

/-- Scenario for C4: a file check with no `min_size` and no `contains`. -/
def c4Spec : FileSpec := { path := "out.txt" }

/-- Scenario for C2: a project already past `enabled`. -/
def c2Project : ProjectInfo :=
  { name := "proj", dir := "/p", lifecycle := .running }

/-- Scenario for C2: a session whose log was last written 200 s before the
tick (state `idle`). -/
def c2Session (now : ℚ) : SessionInfo :=
  { path := "log.jsonl", cwd := "/p", mtime := now - 200, file_size := 10,
    session_id := none }

/-- Scenario for C2: the environment of one tick at time `now`; the
assistant's last message is the same on every tick. -/
def c2Env (now : ℚ) : ProjEnv :=
  { now := now, today := "2026-10-12", nowStr := "T", lastFromUser := false,
    lastMessage := some "same output", checkEnv := emptyCheckEnv }

/-- Scenario for C2: one full `process_project` call at time `now`. -/
def c2Tick (state : GlobalState) (now : ℚ) :
    Bool × ProjectInfo × GlobalState × List Event :=
  process_project c2Project {} state [("/p", c2Session now)] (c2Env now)

/-- Scenario for C2: the three consecutive ticks (default config, so
`loop_detection_threshold` is 3), 1000 s apart so no cooldown interferes. -/
def c2r1 : Bool × ProjectInfo × GlobalState × List Event := c2Tick {} 1000

/-- Second tick of the C2 scenario. -/
def c2r2 : Bool × ProjectInfo × GlobalState × List Event :=
  c2Tick c2r1.2.2.1 2000

/-- Third tick of the C2 scenario. -/
def c2r3 : Bool × ProjectInfo × GlobalState × List Event :=
  c2Tick c2r2.2.2.1 3000

/-- Scenario for C5: an actionable project (fresh state, session present). -/
def c5Project : ProjectInfo := { name := "p1", dir := "/p1" }

/-- Scenario for C5: SessionInfo for the actionable project. -/
def c5Session : SessionInfo :=
  { path := "log.jsonl", cwd := "/p1", mtime := 0, file_size := 5,
    session_id := none }

/-- Scenario for C5: another project's state already holds 200 sends
today, so the global daily cap (default 200) is exhausted. -/
def c5State : GlobalState :=
  { projects := [("/other",
      { daily_sends := 200, daily_sends_date := "2026-10-12" })] }

/-- Scenario for C3: a tick whose configuration file is missing. -/
def c3Env : MainEnv :=
  { configLoaded := none, preflightOk := true, loadedState := {},
    projects := [], sessions := [], now := 0, today := "2026-10-12",
    nowStr := "T" }

/-- Scenario for the C3 witness: a loaded config and passing preflight,
one schedulable project, and a `process_project` call that raises. -/
def c3GoodEnv : MainEnv :=
  { configLoaded := some {}, preflightOk := true, loadedState := {},
    projects := [c5Project], sessions := [("/p1", c5Session)], now := 0,
    today := "2026-10-12", nowStr := "T" }

/-- Scenario for C6: the two-task cycle A → B → A. -/
def c6TaskA : Task := { id := "A", depends_on := ["B"] }

/-- Scenario for C6: second task of the cycle. -/
def c6TaskB : Task := { id := "B", depends_on := ["A"] }

/-- Scenario for C6: the cyclic manifest. -/
def c6Tasks : List Task := [c6TaskA, c6TaskB]

/-- Scenario for C10: a single pending task depending on an id that
matches no task. -/
def c10Task : Task := { id := "t", depends_on := ["ghost"] }

/-- Scenario for C10: its manifest. -/
def c10Tasks : List Task := [c10Task]

/-- Scenario for C10: the state map holding just the pending task. -/
def c10States : StateMap := [("t", { status := "PENDING" })]

/-- Scenario for C9: two logs for the same project; the second is larger. -/
def c9LogSmall : LogEntry :=
  { path := "a.jsonl", cwd := some "/p/sub", mtime := 50, size := 5,
    sessionId := none }

/-- Scenario for C9: the larger log that must win. -/
def c9LogBig : LogEntry :=
  { path := "b.jsonl", cwd := some "/p", mtime := 10, size := 9,
    sessionId := some "u" }

/-! # Theorems -/

/-! ## Dictionary lemmas -/

theorem find?_update_self {α : Type} (m : List (String × α)) (k : String)
    (v : α) (h : (m.find? (fun kv => kv.1 = k)).isSome) :
    (m.map (fun kv => if kv.1 = k then (k, v) else kv)).find?
      (fun kv => kv.1 = k) = some (k, v) := by
  induction m with
  | nil => simp at h
  | cons a t ih =>
    by_cases ha : a.1 = k
    · simp [List.find?_cons, ha]
    · rw [List.find?_cons_of_neg _ (by simp [ha])] at h
      simp only [List.map, if_neg ha]
      rw [List.find?_cons_of_neg _ (by simp [ha])]
      exact ih h

theorem find?_update_ne {α : Type} (m : List (String × α)) (k k' : String)
    (v : α) (h : k' ≠ k) :
    (m.map (fun kv => if kv.1 = k then (k, v) else kv)).find?
      (fun kv => kv.1 = k') = m.find? (fun kv => kv.1 = k') := by
  induction m with
  | nil => simp
  | cons a t ih =>
    by_cases ha : a.1 = k
    · have : a.1 ≠ k' := by rw [ha]; exact fun hh => h hh.symm
      simp only [List.map, if_pos ha]
      rw [List.find?_cons_of_neg _ (by simpa using fun hh => h hh.symm),
        List.find?_cons_of_neg _ (by simpa using this)]
      exact ih
    · simp only [List.map, if_neg ha]
      by_cases hk : a.1 = k'
      · rw [List.find?_cons_of_pos _ (by simpa using hk),
          List.find?_cons_of_pos _ (by simpa using hk)]
      · rw [List.find?_cons_of_neg _ (by simpa using hk),
          List.find?_cons_of_neg _ (by simpa using hk)]
        exact ih

theorem mapGet_mapSet_self {α : Type} (m : List (String × α)) (k : String)
    (v : α) : mapGet (mapSet m k v) k = some v := by
  unfold mapGet mapSet
  by_cases h : (m.find? (fun kv => kv.1 = k)).isSome
  · rw [if_pos h, find?_update_self m k v h]; rfl
  · rw [if_neg h]
    rw [Option.not_isSome_iff_eq_none] at h
    rw [List.find?_append, h]
    simp

theorem mapGet_mapSet_ne {α : Type} (m : List (String × α)) (k k' : String)
    (v : α) (h : k' ≠ k) : mapGet (mapSet m k v) k' = mapGet m k' := by
  have hkk : ¬ (k = k') := fun hh => h hh.symm
  unfold mapGet mapSet
  by_cases hp : (m.find? (fun kv => kv.1 = k)).isSome
  · rw [if_pos hp, find?_update_ne m k k' v h]
  · rw [if_neg hp, List.find?_append]
    have hsingle : ([(k, v)].find? (fun kv => kv.1 = k')) = none := by
      simp [hkk]
    rw [hsingle]
    cases hf : m.find? (fun kv => kv.1 = k') <;> simp

theorem mapGet_eq_none_iff {α : Type} (m : List (String × α)) (k : String) :
    mapGet m k = none ↔ k ∉ m.map Prod.fst := by
  unfold mapGet
  rw [Option.map_eq_none', List.find?_eq_none]
  constructor
  · intro h hk
    obtain ⟨kv, hkv, hfst⟩ := List.mem_map.mp hk
    exact absurd (by simpa using hfst) (by simpa using h kv hkv)
  · intro h kv hkv
    simp only [decide_eq_true_eq]
    intro hfst
    exact h (List.mem_map.mpr ⟨kv, hkv, hfst⟩)

theorem mapSet_keys_present {α : Type} (m : List (String × α)) (k : String)
    (v : α) (h : (mapGet m k).isSome) :
    (mapSet m k v).map Prod.fst = m.map Prod.fst := by
  unfold mapGet at h
  unfold mapSet
  rw [if_pos (by simpa using h)]
  rw [List.map_map]
  congr 1
  funext kv
  by_cases hk : kv.1 = k <;> simp [hk]

theorem mapSet_keys_absent {α : Type} (m : List (String × α)) (k : String)
    (v : α) (h : mapGet m k = none) :
    (mapSet m k v).map Prod.fst = m.map Prod.fst ++ [k] := by
  unfold mapGet at h
  unfold mapSet
  rw [if_neg (by simp [Option.map_eq_none'.mp h])]
  simp

theorem mapSet_keys_nodup {α : Type} (m : List (String × α)) (k : String)
    (v : α) (h : (m.map Prod.fst).Nodup) :
    ((mapSet m k v).map Prod.fst).Nodup := by
  cases hg : mapGet m k with
  | some w => rw [mapSet_keys_present m k v (by simp [hg])]; exact h
  | none =>
    rw [mapSet_keys_absent m k v hg]
    have hk : k ∉ m.map Prod.fst := (mapGet_eq_none_iff m k).mp hg
    simp [List.nodup_append, h, hk]

/-- C8: the derived session state is purely a function of
`age = now − mtime`: below 120 s it is active, from 120 s up to (but
excluding) 360 s it is idle, and from 360 s on it is done; in particular
age exactly 120 s is idle, 119 s is active, and exactly 360 s is done. -/
theorem c8_session_state_thresholds (now mtime : ℚ) :
    (age_seconds now mtime < 120 →
      get_session_state (age_seconds now mtime) = .active) ∧
    (120 ≤ age_seconds now mtime ∧ age_seconds now mtime < 360 →
      get_session_state (age_seconds now mtime) = .idle) ∧
    (360 ≤ age_seconds now mtime →
      get_session_state (age_seconds now mtime) = .done) ∧
    get_session_state (age_seconds 120 0) = .idle ∧
    get_session_state (age_seconds 119 0) = .active ∧
    get_session_state (age_seconds 360 0) = .done := by
  refine ⟨?_, ?_, ?_,
    by norm_num [get_session_state, age_seconds, ACTIVE_THRESHOLD, IDLE_THRESHOLD],
    by norm_num [get_session_state, age_seconds, ACTIVE_THRESHOLD, IDLE_THRESHOLD],
    by norm_num [get_session_state, age_seconds, ACTIVE_THRESHOLD, IDLE_THRESHOLD]⟩
  · intro h
    simp [get_session_state, ACTIVE_THRESHOLD, h]
  · rintro ⟨h1, h2⟩
    simp only [get_session_state, ACTIVE_THRESHOLD, IDLE_THRESHOLD]
    rw [if_neg (by linarith), if_pos h2]
  · intro h
    simp only [get_session_state, ACTIVE_THRESHOLD, IDLE_THRESHOLD]
    rw [if_neg (by linarith), if_neg (by linarith)]

/-- Witness for C8 at age 119 s. -/
theorem c8_session_state_thresholds_witness :
    get_session_state (age_seconds 119 0) = .active :=
  (c8_session_state_thresholds 119 0).1 (by norm_num [age_seconds])

/-- C1 (counterexample): `save_state`'s write of the state file does not
follow the atomic tempfile–fsync–rename pattern the spec claims — its
operation trace contains no fsync at all. -/
theorem c1_counterexample :
    ¬ atomicReplaceWrite (save_state_ops "{}") STATE_PATH := by
  rintro ⟨tmp, -, hfsync, -, -, -⟩
  simp [save_state_ops] at hfsync

/-- C1 (amended): `save_state` writes the JSON document directly to the
state path with a truncating open followed by a plain write; no rename
and no fsync occurs anywhere in the trace, so the write is not atomic. -/
theorem c1_save_state_direct_write (doc : String) :
    save_state_ops doc = [FsOp.openTrunc STATE_PATH, FsOp.write STATE_PATH doc] ∧
    (save_state_ops doc).filter (fun op => op.isRename || op.isFsync) = [] :=
  ⟨rfl, rfl⟩

/-- C7: intent classification applies priority-ordered checks, first
match wins, in the order error, choice, confirm, review, task-complete,
default; review is checked before task-complete, and absent or empty
input yields default. -/
theorem c7_intent_priority_order :
    analyze_intent none = Intent.default ∧
    analyze_intent (some "") = Intent.default ∧
    (∀ s : String, s ≠ "" → analyze_intent (some s) = firstMatchIntent s.data) ∧
    (∀ s : String, s ≠ "" → hasErrorB s.data = false → hasChoiceB s.data = false →
      hasConfirmB s.data = false → hasReviewB s.data = true →
      analyze_intent (some s) = Intent.review) := by
  refine ⟨rfl, rfl, ?_, ?_⟩
  · intro s hs
    by_cases h1 : hasErrorB s.data
    · simp [analyze_intent, firstMatchIntent, intentChecks, hs, h1]
    · by_cases h2 : hasChoiceB s.data
      · simp [analyze_intent, firstMatchIntent, intentChecks, hs, h1, h2]
      · by_cases h3 : hasConfirmB s.data
        · simp [analyze_intent, firstMatchIntent, intentChecks, hs, h1, h2, h3]
        · by_cases h4 : hasReviewB s.data
          · simp [analyze_intent, firstMatchIntent, intentChecks, hs, h1, h2,
              h3, h4]
          · by_cases h5 : hasCompletionB s.data <;>
              simp [analyze_intent, firstMatchIntent, intentChecks, hs, h1, h2,
                h3, h4, h5]
  · intro s hs h1 h2 h3 h4
    simp [analyze_intent, if_neg hs, h1, h2, h3, h4]

/-- Witness for C7 on a concrete non-empty input. -/
theorem c7_intent_priority_order_witness :
    analyze_intent (some "hello") = firstMatchIntent "hello".data :=
  (c7_intent_priority_order).2.2.1 "hello" (by decide)

/-- C4 (counterexample): with no `min-size` on the check and no
`defaults.min_file_size` in the manifest, a file that exists with size 1
byte does not pass the file check — the effective default minimum size is
100 bytes, not the 1 byte the spec claims. -/
theorem c4_counterexample :
    c4Tc.defaults = [] ∧ c4Spec.min_size = none ∧ c4Spec.contains = [] ∧
    c4Env.fs (pathJoin "/proj" c4Spec.path) = some ⟨1, "ok"⟩ ∧
    (check_file_condition c4Env c4Spec "/proj"
        (c4Tc.get_default "min_file_size" 100)).passed = false := by
  refine ⟨rfl, rfl, rfl, by decide, by decide⟩

/-- C4 (amended): when a file check declares no min-size and the manifest
declares no default `min_file_size`, the effective minimum file size is
the global default of 100 bytes (the default of `check_done_conditions`
and the fallback passed by `process_project_with_tasks`): a file that
exists, has size at least 100 bytes and contains all required substrings
passes the check. -/
theorem c4_effective_min_size_is_100 (tc : TasksConfig) (env : CheckEnv)
    (spec : FileSpec) (dir : String) (data : FileData)
    (hnd : mapGet tc.defaults "min_file_size" = none)
    (hns : spec.min_size = none)
    (hfs : env.fs (pathJoin dir spec.path) = some data)
    (hsz : 100 ≤ data.size)
    (hcont : ∀ kw ∈ spec.contains, chContains data.content.data kw.data = true) :
    tc.get_default "min_file_size" 100 = 100 ∧
    (check_file_condition env spec dir
        (tc.get_default "min_file_size" 100)).passed = true := by
  have hdef : tc.get_default "min_file_size" 100 = 100 := by
    simp [TasksConfig.get_default, hnd]
  refine ⟨hdef, ?_⟩
  rw [hdef]
  have hfilter : spec.contains.filter
      (fun kw => ! chContains data.content.data kw.data) = [] := by
    rw [List.filter_eq_nil_iff]
    intro kw hkw
    simp [hcont kw hkw]
  simp only [check_file_condition, hfs, hns, Option.getD_some, Option.getD_none,
    hfilter]
  rw [if_neg (by omega), if_neg (by simp)]

/-- Witness for C4 (amended) on a concrete 100-byte file. -/
theorem c4_effective_min_size_is_100_witness :
    (check_file_condition
      { fs := fun p => if p = "/d/a.txt" then some ⟨100, "ok"⟩ else none,
        globMatches := fun _ => [], runCommand := fun _ => .finished 0 "" }
      { path := "a.txt", contains := ["ok"] } "/d"
      (c4Tc.get_default "min_file_size" 100)).passed = true :=
  (c4_effective_min_size_is_100 c4Tc
    { fs := fun p => if p = "/d/a.txt" then some ⟨100, "ok"⟩ else none,
      globMatches := fun _ => [], runCommand := fun _ => .finished 0 "" }
    { path := "a.txt", contains := ["ok"] } "/d" ⟨100, "ok"⟩
    rfl rfl (by decide) (by norm_num) (by decide)).2

/-- C3 (counterexample): a tick whose configuration file is missing (or
unreadable — `load_config` then returns a falsy `{}`) returns without
writing the state file even once. -/
theorem c3_counterexample :
    (main_tick c3Env (fun _ s => .ok (false, s))).saves = 0 := rfl

/-- C3 (amended): a tick that loads a configuration and passes preflight
writes the state file exactly once before returning — also when no
projects load, when nothing is scheduled, and whatever the per-project
calls do (including raising; the exception is caught) — but a tick that
aborts on a missing/unreadable configuration or a failed preflight check
returns without writing state. -/
theorem c3_tick_save_behaviour (env : MainEnv)
    (runProject : ProjectInfo → GlobalState → Except String (Bool × GlobalState)) :
    (env.configLoaded.isSome → env.preflightOk = true →
      (main_tick env runProject).saves = 1) ∧
    (env.configLoaded = none → (main_tick env runProject).saves = 0) ∧
    (env.preflightOk = false → (main_tick env runProject).saves = 0) := by
  refine ⟨?_, ?_, ?_⟩
  · intro hc hp
    obtain ⟨config, hcfg⟩ := Option.isSome_iff_exists.mp hc
    simp only [main_tick, hcfg, hp]
    rw [if_neg (by simp)]
    cases env.projects with
    | nil => rfl
    | cons p ps =>
      repeat' split
      all_goals rfl
  · intro hc
    simp [main_tick, hc]
  · intro hp
    cases hcfg : env.configLoaded with
    | none => simp [main_tick, hcfg]
    | some config => simp [main_tick, hcfg, hp]

/-- Witness for C3 (amended): a configured tick whose only project raises
inside `process_project` still saves state once. -/
theorem c3_tick_save_behaviour_witness :
    (main_tick c3GoodEnv (fun _ _ => .error "boom")).saves = 1 :=
  (c3_tick_save_behaviour c3GoodEnv (fun _ _ => .error "boom")).1 rfl rfl

/-- The C2 scenario's message classifies as default intent. -/
theorem c2_intent_default : analyze_intent (some "same output") = .default := by
  decide

/-- C2 (code bug): three consecutive ticks with an identical assistant
message under the default `loop_detection_threshold` of 3.  The first
tick sends and records fingerprint/loop-count 1; the second and third
ticks return early (no send) *before* the send path that would grow
`loop_count`, so `loop_count` stays at 1 forever: on the third tick the
lifecycle is NOT set to error, no notification is emitted, and the
loop-detected branch is unreachable — contradicting the claim (and spec
S3), which demands lifecycle → error plus a notification on the third
tick. -/
theorem c2_loop_detection_never_fires :
    ({} : Config).loop_detection_threshold.getD 3 = 3 ∧
    c2r1.1 = true ∧
    c2r2.1 = false ∧ c2r2.2.2.2 = [] ∧
    c2r3.1 = false ∧ c2r3.2.2.2 = [] ∧
    c2r3.2.1.lifecycle = .running ∧
    (projView c2r3.2.2.1 "/p").loop_count = 1 ∧
    (projView c2r3.2.2.1 "/p").lifecycle = "enabled" := by
  refine ⟨rfl, ?_, ?_, ?_, ?_, ?_, ?_, ?_, ?_⟩ <;>
  norm_num +decide [c2r1, c2r2, c2r3, c2Tick, c2Env, c2Project, c2Session,
    emptyCheckEnv, projView,
    process_project, get_project_state, putProj, mapGet, mapSet, check_cooldown,
    check_daily_limit, reset_daily_sends_if_needed, get_total_daily_sends,
    increment_send_count, record_history, MAX_HISTORY_ENTRIES,
    update_project_send_order, removeFirst, update_project_lifecycle,
    get_session_state, age_seconds, ACTIVE_THRESHOLD, IDLE_THRESHOLD,
    compute_output_hash, ProjectInfo.cooldownOverride, ProjectInfo.maxDailyOverride,
    List.find?, c2_intent_default]

/-! ## Scheduler lemmas (C5) -/

theorem reset_last_send (today : String) (ps : ProjectState) :
    (reset_daily_sends_if_needed today ps).last_send_at = ps.last_send_at := by
  unfold reset_daily_sends_if_needed
  split <;> rfl

theorem check_cooldown_reset (now : ℚ) (today : String) (ps : ProjectState)
    (cd : ℚ) : check_cooldown now (reset_daily_sends_if_needed today ps) cd =
      check_cooldown now ps cd := by
  unfold check_cooldown
  rw [reset_last_send]

theorem reset_idem (today : String) (ps : ProjectState) :
    reset_daily_sends_if_needed today (reset_daily_sends_if_needed today ps) =
      reset_daily_sends_if_needed today ps := by
  unfold reset_daily_sends_if_needed
  by_cases h : ps.daily_sends_date ≠ today
  · rw [if_pos h]; simp
  · rw [if_neg h, if_neg h]

theorem check_daily_fst_reset (today : String) (ps : ProjectState) (maxd : ℕ) :
    (check_daily_limit today (reset_daily_sends_if_needed today ps) maxd).1 =
      (check_daily_limit today ps maxd).1 := by
  unfold check_daily_limit
  rw [reset_idem]

theorem dailyContrib_reset (today : String) (ps : ProjectState) :
    dailyContrib today (reset_daily_sends_if_needed today ps) =
      dailyContrib today ps := by
  unfold dailyContrib reset_daily_sends_if_needed
  by_cases h : ps.daily_sends_date ≠ today
  · rw [if_pos h]
    simp [if_neg (fun hh => h hh)]
  · rw [if_neg h]

theorem dailyContrib_default (today : String) :
    dailyContrib today ({} : ProjectState) = 0 := by
  unfold dailyContrib
  split <;> rfl

theorem total_eq_sum (today : String) (st : GlobalState) :
    get_total_daily_sends today st =
      (st.projects.map (fun kv => dailyContrib today kv.2)).sum := rfl

theorem sum_update_contrib (today : String)
    (m : List (String × ProjectState)) (dir : String) (ps : ProjectState)
    (hnd : (m.map Prod.fst).Nodup) (v0 : ProjectState)
    (hg : mapGet m dir = some v0)
    (h : dailyContrib today ps = dailyContrib today v0) :
    ((m.map (fun kv => if kv.1 = dir then (dir, ps) else kv)).map
      (fun kv => dailyContrib today kv.2)).sum =
    (m.map (fun kv => dailyContrib today kv.2)).sum := by
  induction m with
  | nil => simp [mapGet] at hg
  | cons a t ih =>
    simp only [List.map_cons, List.nodup_cons] at hnd
    by_cases ha : a.1 = dir
    · have hv : v0 = a.2 := by
        unfold mapGet at hg
        rw [List.find?_cons_of_pos _ (by simpa using ha)] at hg
        simpa using hg.symm
      have ht : t.map (fun kv => if kv.1 = dir then (dir, ps) else kv) = t := by
        apply List.map_congr_left ?_ |>.trans (List.map_id t)
        intro kv hkv
        have : kv.1 ≠ dir := by
          intro hh
          exact hnd.1 (ha ▸ hh ▸ List.mem_map.mpr ⟨kv, hkv, rfl⟩)
        simp [this]
      simp [ha, ht, h, hv]
    · have hg' : mapGet t dir = some v0 := by
        unfold mapGet at hg ⊢
        rwa [List.find?_cons_of_neg _ (by simpa using ha)] at hg
      simp only [List.map_cons, if_neg ha, List.sum_cons]
      rw [ih hnd.2 hg']

theorem total_putProj (today : String) (st : GlobalState) (dir : String)
    (ps : ProjectState) (hnd : (st.projects.map Prod.fst).Nodup)
    (h : dailyContrib today ps = dailyContrib today (projView st dir)) :
    get_total_daily_sends today (putProj st dir ps) =
      get_total_daily_sends today st := by
  rw [total_eq_sum, total_eq_sum]
  show ((mapSet st.projects dir ps).map (fun kv => dailyContrib today kv.2)).sum = _
  cases hg : mapGet st.projects dir with
  | none =>
    have hfind : st.projects.find? (fun kv => kv.1 = dir) = none := by
      unfold mapGet at hg
      exact Option.map_eq_none'.mp hg
    unfold mapSet
    rw [if_neg (by simp [hfind])]
    have h0 : dailyContrib today ps = 0 := by
      rw [h]; unfold projView; rw [hg]; exact dailyContrib_default today
    simp [h0]
  | some v0 =>
    unfold mapSet
    have hsome : (st.projects.find? (fun kv => kv.1 = dir)).isSome := by
      unfold mapGet at hg
      cases hf : st.projects.find? (fun kv => kv.1 = dir) with
      | none => rw [hf] at hg; simp at hg
      | some kv => simp
    rw [if_pos hsome]
    exact sum_update_contrib today st.projects dir ps hnd v0 hg
      (by rwa [projView, hg] at h)

theorem projView_putProj_self (st : GlobalState) (dir : String)
    (ps : ProjectState) : projView (putProj st dir ps) dir = ps := by
  unfold projView putProj
  simp [mapGet_mapSet_self]

theorem projView_putProj_ne (st : GlobalState) (dir dir' : String)
    (ps : ProjectState) (h : dir' ≠ dir) :
    projView (putProj st dir ps) dir' = projView st dir' := by
  unfold projView putProj
  simp [mapGet_mapSet_ne _ _ _ _ h]

theorem putProj_nodup (st : GlobalState) (dir : String) (ps : ProjectState)
    (hnd : (st.projects.map Prod.fst).Nodup) :
    (((putProj st dir ps).projects).map Prod.fst).Nodup :=
  mapSet_keys_nodup _ _ _ hnd

theorem get_project_state_fst (st : GlobalState) (dir : String) :
    (get_project_state st dir).1 = projView st dir := by
  unfold get_project_state projView
  cases hg : mapGet st.projects dir <;> simp [hg]

theorem get_project_state_snd (st : GlobalState) (dir : String) :
    (get_project_state st dir).2 = st ∨
      (mapGet st.projects dir = none ∧
        (get_project_state st dir).2 = putProj st dir {}) := by
  unfold get_project_state
  cases hg : mapGet st.projects dir with
  | some ps => exact Or.inl rfl
  | none => exact Or.inr ⟨rfl, rfl⟩

theorem total_gps (today : String) (st : GlobalState) (dir : String)
    (hnd : (st.projects.map Prod.fst).Nodup) :
    get_total_daily_sends today (get_project_state st dir).2 =
      get_total_daily_sends today st := by
  rcases get_project_state_snd st dir with h | ⟨hg, h⟩
  · rw [h]
  · rw [h]
    apply total_putProj today st dir {} hnd
    unfold projView
    rw [hg]
    rfl

theorem nodup_gps (st : GlobalState) (dir : String)
    (hnd : (st.projects.map Prod.fst).Nodup) :
    (((get_project_state st dir).2).projects.map Prod.fst).Nodup := by
  rcases get_project_state_snd st dir with h | ⟨_, h⟩
  · rw [h]; exact hnd
  · rw [h]; exact putProj_nodup st dir {} hnd

theorem projView_gps (st : GlobalState) (dir dir' : String) :
    projView (get_project_state st dir).2 dir' = projView st dir' := by
  rcases get_project_state_snd st dir with h | ⟨hg, h⟩
  · rw [h]
  · rw [h]
    by_cases hd : dir' = dir
    · subst hd
      rw [projView_putProj_self]
      unfold projView
      rw [hg]
      rfl
    · exact projView_putProj_ne st dir dir' {} hd

theorem update_lifecycle_projects (p : ProjectInfo) (lc : ProjectLifecycle)
    (st : GlobalState) :
    ((update_project_lifecycle p lc st).2).projects = st.projects := rfl

/-- C5 (counterexample): with another project's 200 sends today already
exhausting the global daily cap (default 200), the scheduler still
returns the actionable project — `schedule_projects` never consults the
global cap. -/
theorem c5_counterexample :
    200 ≤ get_total_daily_sends "2026-10-12" c5State ∧
    ({} : Config).max_daily_sends_total.getD 200 = 200 ∧
    (schedule_projects [c5Project] [("/p1", c5Session)] {} 1000 "2026-10-12"
      c5State).1 = [c5Project] := by
  refine ⟨by norm_num +decide [get_total_daily_sends, c5State], rfl, ?_⟩
  norm_num +decide [schedule_projects, scheduleFilter, scheduleFilterLoop,
    scheduleFilterStep, sortByKey, sortInsert, c5Project, c5Session, c5State,
    get_project_state, mapGet, mapSet, check_cooldown, check_daily_limit,
    reset_daily_sends_if_needed, ProjectInfo.cooldownOverride,
    ProjectInfo.maxDailyOverride, List.find?]

/-- The state-view relation the scheduler's filter loop maintains: every
project's viewed state is the original one, possibly with the daily
counter reset for today. -/
def StView (today : String) (orig cur : GlobalState) : Prop :=
  ∀ dir, projView cur dir = projView orig dir ∨
    projView cur dir = reset_daily_sends_if_needed today (projView orig dir)

theorem stview_refl (today : String) (st : GlobalState) : StView today st st :=
  fun _ => Or.inl rfl

theorem stview_cooldown {today : String} {orig cur : GlobalState}
    (h : StView today orig cur) (dir : String) (now cd : ℚ) :
    check_cooldown now (projView cur dir) cd =
      check_cooldown now (projView orig dir) cd := by
  rcases h dir with hh | hh <;> rw [hh]
  exact check_cooldown_reset now today (projView orig dir) cd

theorem stview_daily {today : String} {orig cur : GlobalState}
    (h : StView today orig cur) (dir : String) (maxd : ℕ) :
    (check_daily_limit today (projView cur dir) maxd).1 =
      (check_daily_limit today (projView orig dir) maxd).1 := by
  rcases h dir with hh | hh <;> rw [hh]
  exact check_daily_fst_reset today (projView orig dir) maxd

theorem stview_gps {today : String} {orig cur : GlobalState}
    (h : StView today orig cur) (dir : String) :
    StView today orig (get_project_state cur dir).2 := by
  intro d
  rw [projView_gps]
  exact h d

theorem check_daily_snd (today : String) (ps : ProjectState) (maxd : ℕ) :
    (check_daily_limit today ps maxd).2 =
      reset_daily_sends_if_needed today ps := rfl

theorem stview_step (sessions : List (String × SessionInfo)) (config : Config)
    (now : ℚ) {today : String} {orig cur : GlobalState}
    (h : StView today orig cur) (p : ProjectInfo) :
    StView today orig (scheduleFilterStep sessions config now today cur p).2 := by
  unfold scheduleFilterStep
  split
  · exact h
  · split
    · exact h
    · split
      · exact h
      · rcases hgps : get_project_state cur p.dir with ⟨ps0, st1⟩
        have hps0 : ps0 = projView cur p.dir := by
          rw [← get_project_state_fst cur p.dir, hgps]
        have hst1 : StView today orig st1 := by
          have := stview_gps h p.dir
          rwa [hgps] at this
        simp only [hgps]
        split
        · exact hst1
        · rcases hcd : check_daily_limit today ps0
            (p.maxDailyOverride (config.max_daily_sends.getD 50)) with ⟨capped, ps1⟩
          have hps1 : ps1 = reset_daily_sends_if_needed today ps0 := by
            rw [← check_daily_snd today ps0
              (p.maxDailyOverride (config.max_daily_sends.getD 50)), hcd]
          have hput : StView today orig (putProj st1 p.dir ps1) := by
            intro d
            by_cases hd : d = p.dir
            · subst hd
              rw [projView_putProj_self, hps1, hps0]
              rcases h p.dir with hh | hh <;> rw [hh]
              · exact Or.inr rfl
              · rw [reset_idem]
                exact Or.inr rfl
            · rw [projView_putProj_ne _ _ _ _ hd]
              exact hst1 d
          simp only [hcd]
          split
          · exact hput
          · exact hput

theorem step_drop (sessions : List (String × SessionInfo)) (config : Config)
    (now : ℚ) {today : String} {orig cur : GlobalState}
    (h : StView today orig cur) (p : ProjectInfo)
    (hdrop : scheduleDropCond sessions config now today orig p) :
    (scheduleFilterStep sessions config now today cur p).1 = none := by
  unfold scheduleFilterStep
  by_cases h1 : p.lifecycle ≠ ProjectLifecycle.enabled ∧
      p.lifecycle ≠ ProjectLifecycle.running
  · rw [if_pos h1]
  · rw [if_neg h1]
    by_cases h2 : ¬ p.enabled
    · rw [if_pos h2]
    · rw [if_neg h2]
      by_cases h3 : (mapGet sessions p.dir).isNone
      · rw [if_pos h3]
      · rw [if_neg h3]
        rcases hgps : get_project_state cur p.dir with ⟨ps0, st1⟩
        have hps0 : ps0 = projView cur p.dir := by
          rw [← get_project_state_fst cur p.dir, hgps]
        simp only [hgps]
        have hcd : check_cooldown now (projView cur p.dir)
            (p.cooldownOverride (config.cooldown.getD 120)) =
            check_cooldown now (projView orig p.dir)
              (p.cooldownOverride (config.cooldown.getD 120)) :=
          stview_cooldown h p.dir now _
        by_cases h4 : check_cooldown now ps0
            (p.cooldownOverride (config.cooldown.getD 120)) = true
        · rw [if_pos h4]
        · rw [if_neg h4]
          rcases hcdl : check_daily_limit today ps0
            (p.maxDailyOverride (config.max_daily_sends.getD 50)) with ⟨capped, ps1⟩
          have h5 : capped = true := by
            have : (check_daily_limit today ps0
                (p.maxDailyOverride (config.max_daily_sends.getD 50))).1 =
                capped := by rw [hcdl]
            rw [← this, hps0, stview_daily h]
            rcases hdrop with hd | hd | hd | hd | hd
            · exact absurd hd h1
            · exact absurd hd h2
            · exact absurd (by simp [hd]) h3
            · exact absurd (by rw [← hps0] at hcd; rw [hcd]; exact hd) h4
            · exact hd
          simp only [hcdl, h5, if_pos]

theorem loop_drop (sessions : List (String × SessionInfo)) (config : Config)
    (now : ℚ) {today : String} {orig : GlobalState} (p : ProjectInfo)
    (hdrop : scheduleDropCond sessions config now today orig p) :
    ∀ (projects : List ProjectInfo) (acc : List (ProjectInfo × ℚ))
      (cur : GlobalState), StView today orig cur → p ∉ acc.map (·.1) →
      p ∉ ((scheduleFilterLoop sessions config now today projects
        (acc, cur)).1.map (·.1)) := by
  intro projects
  induction projects with
  | nil => intro acc cur _ hacc; simpa [scheduleFilterLoop] using hacc
  | cons q qs ih =>
    intro acc cur hview hacc
    unfold scheduleFilterLoop
    rcases hstep : scheduleFilterStep sessions config now today cur q with
      ⟨r, cur1⟩
    have hview1 : StView today orig cur1 := by
      have := stview_step sessions config now hview q
      rwa [hstep] at this
    cases r with
    | none => exact ih acc cur1 hview1 hacc
    | some key =>
      apply ih (acc ++ [(q, key)]) cur1 hview1
      intro hmem
      rw [List.map_append, List.mem_append] at hmem
      rcases hmem with hmem | hmem
      · exact hacc hmem
      · have hq : p = q := by simpa using hmem
        subst hq
        have := step_drop sessions config now hview p hdrop
        rw [hstep] at this
        simp at this

theorem mem_sortInsert (x y : ProjectInfo × ℚ) (l : List (ProjectInfo × ℚ)) :
    x ∈ sortInsert y l ↔ x = y ∨ x ∈ l := by
  induction l with
  | nil => simp [sortInsert]
  | cons a t ih =>
    have hstep : sortInsert y (a :: t) =
        if a.2 ≤ y.2 then a :: sortInsert y t else y :: a :: t := rfl
    by_cases hle : a.2 ≤ y.2
    · rw [hstep, if_pos hle, List.mem_cons, ih, List.mem_cons]
      tauto
    · rw [hstep, if_neg hle, List.mem_cons, List.mem_cons]

theorem mem_sortByKey (x : ProjectInfo × ℚ) (l : List (ProjectInfo × ℚ)) :
    x ∈ sortByKey l ↔ x ∈ l := by
  induction l with
  | nil => simp [sortByKey]
  | cons a t ih =>
    unfold sortByKey at ih ⊢
    simp only [List.foldr_cons, mem_sortInsert, List.mem_cons, ih]

/-- C5 (amended): `schedule_projects` drops a project whenever its
lifecycle is outside {enabled, running}, it is not enabled, it has no
session, its cooldown is active, or its per-project daily cap is reached
— but it does not consult the global daily cap.  The global cap (default
200) is enforced by the tick driver instead: once today's total sends are
at or above the cap, `process_project` issues no send. -/
theorem c5_scheduler_filter_and_driver_cap :
    (∀ (projects : List ProjectInfo) (sessions : List (String × SessionInfo))
      (config : Config) (now : ℚ) (today : String) (state : GlobalState)
      (p : ProjectInfo), scheduleDropCond sessions config now today state p →
      p ∉ (schedule_projects projects sessions config now today state).1) ∧
    (∀ (project : ProjectInfo) (config : Config) (state : GlobalState)
      (sessions : List (String × SessionInfo)) (env : ProjEnv),
      (state.projects.map Prod.fst).Nodup →
      config.max_daily_sends_total.getD 200 ≤
        get_total_daily_sends env.today state →
      (process_project project config state sessions env).1 = false) := by
  constructor
  · intro projects sessions config now today state p hdrop hmem
    have hnot := loop_drop sessions config now p hdrop projects [] state
      (stview_refl today state) (by simp)
    apply hnot
    have hfst : (schedule_projects projects sessions config now today state).1 =
        (sortByKey (scheduleFilter projects sessions config now today
          state).1).map (·.1) := rfl
    rw [hfst] at hmem
    show p ∈ ((scheduleFilter projects sessions config now today
      state).1.map (·.1))
    obtain ⟨pair, hpair, hp⟩ := List.mem_map.mp hmem
    exact List.mem_map.mpr ⟨pair, (mem_sortByKey pair _).mp hpair, hp⟩
  · intro project config state sessions env hnd hcap
    rcases hgps : get_project_state state project.dir with ⟨ps, state1⟩
    have hps : ps = projView state project.dir := by
      rw [← get_project_state_fst state project.dir, hgps]
    have hst1 : state1 = (get_project_state state project.dir).2 := by
      rw [hgps]
    have htot1 : get_total_daily_sends env.today state1 =
        get_total_daily_sends env.today state := by
      rw [hst1]; exact total_gps env.today state project.dir hnd
    have hnd1 : (state1.projects.map Prod.fst).Nodup := by
      rw [hst1]; exact nodup_gps state project.dir hnd
    have hview1 : projView state1 project.dir = projView state project.dir := by
      rw [hst1]; exact projView_gps state project.dir project.dir
    unfold process_project
    simp only [hgps]
    have habs : ∀ (stL : GlobalState) (maxd : ℕ),
        stL.projects = state1.projects →
        config.max_daily_sends_total.getD 200 ≤ get_total_daily_sends env.today
          (putProj stL project.dir
            (check_daily_limit env.today ps maxd).2) := by
      intro stL maxd hstL
      have hndL : (stL.projects.map Prod.fst).Nodup := by
        rw [hstL]; exact hnd1
      have hviewL : projView stL project.dir = projView state project.dir := by
        rw [← hview1]
        unfold projView
        rw [hstL]
      have hcontrib : dailyContrib env.today
          (check_daily_limit env.today ps maxd).2 =
          dailyContrib env.today (projView stL project.dir) := by
        rw [check_daily_snd, dailyContrib_reset, hps, hviewL]
      rw [total_putProj env.today stL project.dir _ hndL hcontrib,
        total_eq_sum, hstL, ← total_eq_sum, htot1]
      exact hcap
    have hupd1 : ∀ lc, (update_project_lifecycle project lc state1).1 =
        { project with lifecycle := lc } := fun _ => rfl
    have hcd_over : ∀ lc (d : ℚ),
        ProjectInfo.cooldownOverride { project with lifecycle := lc } d =
          project.cooldownOverride d := fun _ _ => rfl
    have hmd_over : ∀ lc (d : ℕ),
        ProjectInfo.maxDailyOverride { project with lifecycle := lc } d =
          project.maxDailyOverride d := fun _ _ => rfl
    by_cases hen : project.lifecycle = ProjectLifecycle.enabled
    · simp only [if_pos hen, hupd1, hcd_over, hmd_over]
      by_cases hcool : check_cooldown env.now ps
          (project.cooldownOverride (config.cooldown.getD 120)) = true
      · simp only [if_pos hcool]
      · simp only [if_neg hcool]
        by_cases hdl : (check_daily_limit env.today ps
            (project.maxDailyOverride (config.max_daily_sends.getD 50))).1 = true
        · simp only [if_pos hdl]
        · simp only [if_neg hdl]
          rw [if_pos (habs
            ((update_project_lifecycle project ProjectLifecycle.running
              state1).2)
            (project.maxDailyOverride (config.max_daily_sends.getD 50)) rfl)]
    · simp only [if_neg hen]
      by_cases hcool : check_cooldown env.now ps
          (project.cooldownOverride (config.cooldown.getD 120)) = true
      · simp only [if_pos hcool]
      · simp only [if_neg hcool]
        by_cases hdl : (check_daily_limit env.today ps
            (project.maxDailyOverride (config.max_daily_sends.getD 50))).1 = true
        · simp only [if_pos hdl]
        · simp only [if_neg hdl]
          rw [if_pos (habs state1
            (project.maxDailyOverride (config.max_daily_sends.getD 50)) rfl)]

/-- Witness for C5 (amended): a paused project is dropped by the filter. -/
theorem c5_scheduler_filter_and_driver_cap_witness :
    ({ name := "q", dir := "/q", lifecycle := .paused } : ProjectInfo) ∉
      (schedule_projects [{ name := "q", dir := "/q", lifecycle := .paused }]
        [] {} 0 "2026-10-12" {}).1 :=
  c5_scheduler_filter_and_driver_cap.1 _ _ _ 0 "2026-10-12" {} _
    (Or.inl (by decide))

/-! ## Session discovery lemmas (C9) -/

/-- Invariant of the `discover_sessions` fold: keyed by project dir with
no duplicates; absent keys have no assigned log; present keys hold a
session built from some assigned log that lexicographically dominates
(size, then mtime) every assigned log seen so far. -/
def DiscoverInv (dirs : List String) (processed : List LogEntry)
    (m : List (String × SessionInfo)) : Prop :=
  (m.map Prod.fst).Nodup ∧
  ∀ pd,
    (mapGet m pd = none → ∀ log ∈ processed, assignedProject dirs log ≠ some pd) ∧
    (∀ s, mapGet m pd = some s →
      (∃ log ∈ processed, ∃ cwd, log.cwd = some cwd ∧
          assignedProject dirs log = some pd ∧ s = logSession log cwd) ∧
        ∀ log ∈ processed, assignedProject dirs log = some pd →
          (log.size < s.file_size ∨
            (log.size = s.file_size ∧ log.mtime ≤ s.mtime)))

theorem discoverInv_nil (dirs : List String) : DiscoverInv dirs [] [] := by
  refine ⟨List.nodup_nil, fun pd => ⟨fun _ log hlog => absurd hlog
    (List.not_mem_nil log), fun s hs => ?_⟩⟩
  simp [mapGet] at hs

theorem discoverInv_step (dirs : List String) (processed : List LogEntry)
    (m : List (String × SessionInfo)) (log : LogEntry)
    (hinv : DiscoverInv dirs processed m) :
    DiscoverInv dirs (processed ++ [log]) (discoverStep dirs m log) := by
  obtain ⟨hnd, hpd⟩ := hinv
  unfold discoverStep
  cases hcwd : log.cwd with
  | none =>
    dsimp only
    refine ⟨hnd, fun pd => ⟨fun hn log1 hlog1 => ?_, fun s hs => ?_⟩⟩
    · rcases List.mem_append.mp hlog1 with hmem | hmem
      · exact (hpd pd).1 hn log1 hmem
      · have hsubst : log = log1 := Eq.symm (by simpa using hmem)
        subst hsubst
        simp [assignedProject, hcwd]
    · obtain ⟨⟨log1, hlog1, hrest⟩, hdom⟩ := (hpd pd).2 s hs
      refine ⟨⟨log1, List.mem_append_left _ hlog1, hrest⟩, ?_⟩
      intro log2 hlog2 hasg
      rcases List.mem_append.mp hlog2 with hmem | hmem
      · exact hdom log2 hmem hasg
      · have hsubst : log = log2 := Eq.symm (by simpa using hmem)
        subst hsubst
        simp [assignedProject, hcwd] at hasg
  | some cwd =>
    dsimp only
    cases hfind : dirs.find? (fun d => matchesProject cwd d) with
    | none =>
      dsimp only
      refine ⟨hnd, fun pd => ⟨fun hn log1 hlog1 => ?_, fun s hs => ?_⟩⟩
      · rcases List.mem_append.mp hlog1 with hmem | hmem
        · exact (hpd pd).1 hn log1 hmem
        · have hsubst : log = log1 := Eq.symm (by simpa using hmem)
          subst hsubst
          simp [assignedProject, hcwd, hfind]
      · obtain ⟨⟨log1, hlog1, hrest⟩, hdom⟩ := (hpd pd).2 s hs
        refine ⟨⟨log1, List.mem_append_left _ hlog1, hrest⟩, ?_⟩
        intro log2 hlog2 hasg
        rcases List.mem_append.mp hlog2 with hmem | hmem
        · exact hdom log2 hmem hasg
        · have hsubst : log = log2 := Eq.symm (by simpa using hmem)
          subst hsubst
          simp [assignedProject, hcwd, hfind] at hasg
    | some pd0 =>
      dsimp only
      have hasg0 : assignedProject dirs log = some pd0 := by
        simp [assignedProject, hcwd, hfind]
      cases hget : mapGet m pd0 with
      | none =>
        dsimp only
        refine ⟨?_, fun pd => ⟨fun hn log1 hlog1 => ?_, fun s hs => ?_⟩⟩
        · exact mapSet_keys_nodup m pd0 _ hnd
        · by_cases hpdeq : pd = pd0
          · subst hpdeq
            rw [mapGet_mapSet_self] at hn
            exact absurd hn (by simp)
          · rw [mapGet_mapSet_ne m pd0 pd _ hpdeq] at hn
            rcases List.mem_append.mp hlog1 with hmem | hmem
            · exact (hpd pd).1 hn log1 hmem
            · have hsubst : log = log1 := Eq.symm (by simpa using hmem)
              subst hsubst
              rw [hasg0]
              simp only [ne_eq, Option.some.injEq]
              exact fun hh => hpdeq hh.symm
        · by_cases hpdeq : pd = pd0
          · subst hpdeq
            rw [mapGet_mapSet_self] at hs
            have hseq : s = logSession log cwd := by
              simpa using hs.symm
            subst hseq
            refine ⟨⟨log, List.mem_append_right _ (by simp), cwd, hcwd,
              hasg0, rfl⟩, ?_⟩
            intro log2 hlog2 hasg2
            rcases List.mem_append.mp hlog2 with hmem | hmem
            · exact absurd hasg2 ((hpd pd).1 hget log2 hmem)
            · have hsubst : log = log2 := Eq.symm (by simpa using hmem)
              subst hsubst
              right
              exact ⟨rfl, le_refl _⟩
          · rw [mapGet_mapSet_ne m pd0 pd _ hpdeq] at hs
            obtain ⟨⟨log1, hlog1, hrest⟩, hdom⟩ := (hpd pd).2 s hs
            refine ⟨⟨log1, List.mem_append_left _ hlog1, hrest⟩, ?_⟩
            intro log2 hlog2 hasg2
            rcases List.mem_append.mp hlog2 with hmem | hmem
            · exact hdom log2 hmem hasg2
            · have hsubst : log = log2 := Eq.symm (by simpa using hmem)
              subst hsubst
              rw [hasg0] at hasg2
              exact absurd (Eq.symm (by simpa using hasg2)) hpdeq
      | some existing =>
        dsimp only
        by_cases hrepl : log.size > existing.file_size ∨
            (log.size = existing.file_size ∧ log.mtime > existing.mtime)
        · rw [if_pos hrepl]
          refine ⟨?_, fun pd => ⟨fun hn log1 hlog1 => ?_, fun s hs => ?_⟩⟩
          · exact mapSet_keys_nodup m pd0 _ hnd
          · by_cases hpdeq : pd = pd0
            · subst hpdeq
              rw [mapGet_mapSet_self] at hn
              exact absurd hn (by simp)
            · rw [mapGet_mapSet_ne m pd0 pd _ hpdeq] at hn
              rcases List.mem_append.mp hlog1 with hmem | hmem
              · exact (hpd pd).1 hn log1 hmem
              · have hsubst : log = log1 := Eq.symm (by simpa using hmem)
                subst hsubst
                rw [hasg0]
                simp only [ne_eq, Option.some.injEq]
                exact fun hh => hpdeq hh.symm
          · by_cases hpdeq : pd = pd0
            · subst hpdeq
              rw [mapGet_mapSet_self] at hs
              have hseq : s = logSession log cwd := by
                simpa using hs.symm
              subst hseq
              refine ⟨⟨log, List.mem_append_right _ (by simp), cwd, hcwd,
                hasg0, rfl⟩, ?_⟩
              intro log2 hlog2 hasg2
              rcases List.mem_append.mp hlog2 with hmem | hmem
              · have hle := ((hpd pd).2 existing hget).2 log2 hmem hasg2
                show log2.size < log.size ∨ (log2.size = log.size ∧ _)
                rcases hrepl with hr | ⟨hr1, hr2⟩
                · rcases hle with hl | ⟨hl1, hl2⟩
                  · exact Or.inl (lt_trans hl hr)
                  · exact Or.inl (hl1 ▸ hr)
                · rcases hle with hl | ⟨hl1, hl2⟩
                  · exact Or.inl (hr1 ▸ hl)
                  · exact Or.inr ⟨hl1.trans hr1.symm ▸ rfl, le_trans hl2
                      (le_of_lt hr2)⟩
              · have hsubst : log = log2 := Eq.symm (by simpa using hmem)
                subst hsubst
                right
                exact ⟨rfl, le_refl _⟩
            · rw [mapGet_mapSet_ne m pd0 pd _ hpdeq] at hs
              obtain ⟨⟨log1, hlog1, hrest⟩, hdom⟩ := (hpd pd).2 s hs
              refine ⟨⟨log1, List.mem_append_left _ hlog1, hrest⟩, ?_⟩
              intro log2 hlog2 hasg2
              rcases List.mem_append.mp hlog2 with hmem | hmem
              · exact hdom log2 hmem hasg2
              · have hsubst : log = log2 := Eq.symm (by simpa using hmem)
                subst hsubst
                rw [hasg0] at hasg2
                exact absurd (Eq.symm (by simpa using hasg2)) hpdeq
        · rw [if_neg hrepl]
          push_neg at hrepl
          refine ⟨hnd, fun pd => ⟨fun hn log1 hlog1 => ?_, fun s hs => ?_⟩⟩
          · rcases List.mem_append.mp hlog1 with hmem | hmem
            · exact (hpd pd).1 hn log1 hmem
            · have hsubst : log = log1 := Eq.symm (by simpa using hmem)
              subst hsubst
              intro hasg2
              rw [hasg0] at hasg2
              have : pd = pd0 := by simpa using hasg2.symm
              subst this
              rw [hget] at hn
              exact absurd hn (by simp)
          · obtain ⟨⟨log1, hlog1, hrest⟩, hdom⟩ := (hpd pd).2 s hs
            refine ⟨⟨log1, List.mem_append_left _ hlog1, hrest⟩, ?_⟩
            intro log2 hlog2 hasg2
            rcases List.mem_append.mp hlog2 with hmem | hmem
            · exact hdom log2 hmem hasg2
            · have hsubst : log = log2 := Eq.symm (by simpa using hmem)
              subst hsubst
              rw [hasg0] at hasg2
              have : pd = pd0 := by simpa using hasg2.symm
              subst this
              rw [hget] at hs
              have hse : existing = s := by simpa using hs
              subst hse
              rcases Nat.lt_or_ge log.size existing.file_size with hlt | hge
              · exact Or.inl hlt
              · have heq : log.size = existing.file_size :=
                  le_antisymm (hrepl.1) hge
                exact Or.inr ⟨heq, hrepl.2 heq⟩

/-- C9: session discovery yields at most one descriptor per project
working directory; any returned descriptor comes from a log assigned to
that project and has maximal byte size among the project's candidate
logs, with ties broken by newest modification time. -/
theorem c9_discover_sessions_selection (dirs : List String)
    (logs : List LogEntry) :
    (((discover_sessions dirs logs).map Prod.fst).Nodup) ∧
    ∀ pd s, mapGet (discover_sessions dirs logs) pd = some s →
      (∃ log ∈ logs, ∃ cwd, log.cwd = some cwd ∧
        assignedProject dirs log = some pd ∧ s = logSession log cwd) ∧
      ∀ log ∈ logs, assignedProject dirs log = some pd →
        (log.size < s.file_size ∨
          (log.size = s.file_size ∧ log.mtime ≤ s.mtime)) := by
  have key : ∀ (ls : List LogEntry) (processed : List LogEntry)
      (m : List (String × SessionInfo)), DiscoverInv dirs processed m →
      DiscoverInv dirs (processed ++ ls) (ls.foldl (discoverStep dirs) m) := by
    intro ls
    induction ls with
    | nil => intro processed m h; simpa using h
    | cons l t ih =>
      intro processed m h
      have h1 := discoverInv_step dirs processed m l h
      have h2 := ih (processed ++ [l]) (discoverStep dirs m l) h1
      simpa using h2
  have hinv := key logs [] [] (discoverInv_nil dirs)
  simp only [List.nil_append] at hinv
  obtain ⟨hnd, hpd⟩ := hinv
  exact ⟨hnd, fun pd s hs => (hpd pd).2 s hs⟩

/-- Witness for C9 on the two-log scenario: the larger log wins. -/
theorem c9_discover_sessions_selection_witness :
    c9LogSmall.size < (logSession c9LogBig "/p").file_size ∨
      (c9LogSmall.size = (logSession c9LogBig "/p").file_size ∧
        c9LogSmall.mtime ≤ (logSession c9LogBig "/p").mtime) :=
  ((c9_discover_sessions_selection ["/p"] [c9LogSmall, c9LogBig]).2 "/p"
    (logSession c9LogBig "/p") (by decide)).2 c9LogSmall (by decide) (by decide)

/-! ## Cycle-detection DFS lemmas (C6, C10) -/

theorem colorOf_setColor_self (st : DfsSt) (x : String) (c : ℕ) :
    colorOf (setColor st x c) x = c := by
  unfold colorOf setColor
  rw [mapGet_mapSet_self]
  rfl

theorem colorOf_setColor_ne (st : DfsSt) (x y : String) (c : ℕ)
    (h : y ≠ x) : colorOf (setColor st x c) y = colorOf st y := by
  unfold colorOf setColor
  rw [mapGet_mapSet_ne _ _ _ _ h]

theorem colorOf_mk_set_self (m : List (String × ℕ)) (p : List String)
    (x : String) (c : ℕ) :
    colorOf ⟨mapSet m x c, p⟩ x = c := by
  unfold colorOf
  rw [mapGet_mapSet_self]
  rfl

theorem colorOf_mk_set_ne (m : List (String × ℕ)) (p p' : List String)
    (x y : String) (c : ℕ) (h : y ≠ x) :
    colorOf ⟨mapSet m x c, p⟩ y = colorOf ⟨m, p'⟩ y := by
  unfold colorOf
  rw [mapGet_mapSet_ne _ _ _ _ h]

theorem whites_cons (a : String × ℕ) (l : List (String × ℕ)) :
    whites (a :: l) = (if a.2 = 0 then 1 else 0) + whites l := by
  unfold whites
  by_cases h : a.2 = 0 <;> simp [List.filter_cons, h, Nat.add_comm]

theorem whites_map_update_le (m : List (String × ℕ)) (id : String) (c : ℕ)
    (hc : c ≠ 0) :
    whites (m.map (fun kv => if kv.1 = id then (id, c) else kv)) ≤
      whites m := by
  induction m with
  | nil => simp [whites]
  | cons a t ih =>
    simp only [List.map_cons]
    rw [whites_cons, whites_cons]
    by_cases ha : a.1 = id
    · rw [if_pos ha]
      simp only [if_neg hc]
      omega
    · rw [if_neg ha]
      omega

theorem whites_map_update_lt (m : List (String × ℕ)) (id : String) (c : ℕ)
    (hc : c ≠ 0) (h : mapGet m id = some 0) :
    whites (m.map (fun kv => if kv.1 = id then (id, c) else kv)) <
      whites m := by
  induction m with
  | nil => simp [mapGet] at h
  | cons a t ih =>
    simp only [List.map_cons]
    rw [whites_cons, whites_cons]
    by_cases ha : a.1 = id
    · have hv : a.2 = 0 := by
        unfold mapGet at h
        rw [List.find?_cons_of_pos _ (by simpa using ha)] at h
        simpa using h
      rw [if_pos ha]
      simp only [if_neg hc, if_pos hv]
      have := whites_map_update_le t id c hc
      omega
    · have ht : mapGet t id = some 0 := by
        unfold mapGet at h ⊢
        rwa [List.find?_cons_of_neg _ (by simpa using ha)] at h
      rw [if_neg ha]
      have := ih ht
      omega

theorem whites_mapSet_le (m : List (String × ℕ)) (id : String) (c : ℕ)
    (hc : c ≠ 0) : whites (mapSet m id c) ≤ whites m := by
  unfold mapSet
  by_cases hf : (m.find? (fun kv => kv.1 = id)).isSome
  · rw [if_pos hf]
    exact whites_map_update_le m id c hc
  · rw [if_neg hf]
    unfold whites
    rw [List.filter_append]
    simp [hc]

theorem whites_mapSet_lt (m : List (String × ℕ)) (id : String) (c : ℕ)
    (hc : c ≠ 0) (h : mapGet m id = some 0) :
    whites (mapSet m id c) < whites m := by
  unfold mapSet
  have hf : (m.find? (fun kv => kv.1 = id)).isSome := by
    unfold mapGet at h
    cases hx : m.find? (fun kv => kv.1 = id) with
    | none => rw [hx] at h; simp at h
    | some kv => rfl
  rw [if_pos hf]
  exact whites_map_update_lt m id c hc h

theorem taskLookup_id {tasks : List Task} {id : String} {t : Task}
    (h : taskLookup tasks id = some t) : t.id = id ∧ t ∈ tasks := by
  unfold taskLookup at h
  have h1 := List.find?_some h
  have h2 := List.mem_of_find?_eq_some h
  exact ⟨by simpa using h1, List.mem_reverse.mp h2⟩

theorem taskLookup_isSome_of_mem {tasks : List Task} {t : Task}
    (h : t ∈ tasks) : (taskLookup tasks t.id).isSome := by
  unfold taskLookup
  rw [List.find?_isSome]
  exact ⟨t, List.mem_reverse.mpr h, by simp⟩

theorem color_key_isSome {tasks : List Task} {st : DfsSt} {id : String}
    (hkeys : st.color.map Prod.fst = (tasks.map (·.id)).dedup)
    (h : (taskLookup tasks id).isSome) : (mapGet st.color id).isSome := by
  obtain ⟨t, ht⟩ := Option.isSome_iff_exists.mp h
  obtain ⟨hid, hmem⟩ := taskLookup_id ht
  have hin : id ∈ st.color.map Prod.fst := by
    rw [hkeys]
    exact List.mem_dedup.mpr (List.mem_map.mpr ⟨t, hmem, hid⟩)
  cases hg : mapGet st.color id with
  | some v => rfl
  | none => exact absurd hin ((mapGet_eq_none_iff _ _).mp hg)

theorem colorOf_eq_some {st : DfsSt} {id : String}
    (h : (mapGet st.color id).isSome) :
    mapGet st.color id = some (colorOf st id) := by
  obtain ⟨v, hv⟩ := Option.isSome_iff_exists.mp h
  unfold colorOf
  rw [hv]
  rfl

theorem mapGet_zeros (l : List String) (x : String) :
    (mapGet (l.map fun i => (i, (0 : ℕ))) x).getD 0 = 0 := by
  induction l with
  | nil => rfl
  | cons i t ih =>
    unfold mapGet at ih ⊢
    simp only [List.map_cons]
    by_cases h : i = x
    · rw [List.find?_cons_of_pos _ (by simpa using h)]
      rfl
    · rw [List.find?_cons_of_neg _ (by simpa using h)]
      exact ih

theorem colorOf_detectInit (tasks : List Task) (x : String) :
    colorOf (detectInit tasks) x = 0 := by
  unfold colorOf detectInit
  exact mapGet_zeros _ x

theorem dInv_detectInit (tasks : List Task) : DInv tasks (detectInit tasks) := by
  refine ⟨?_, ?_, ?_, ?_, ?_, ?_, ?_⟩
  · unfold detectInit
    rw [List.map_map]
    exact List.map_id' _
  · intro x
    rw [colorOf_detectInit]
    omega
  · intro x
    rw [colorOf_detectInit]
    unfold detectInit
    simp
  · exact List.nodup_nil
  · intro x hx
    exact absurd hx (List.not_mem_nil x)
  · exact List.chain'_nil
  · refine ⟨[], List.nodup_nil, ?_, trivial⟩
    intro x
    rw [colorOf_detectInit]
    simp

theorem whites_detectInit (tasks : List Task) :
    whites (detectInit tasks).color < detectFuel tasks := by
  unfold detectFuel
  have h1 : whites (detectInit tasks).color ≤ (detectInit tasks).color.length :=
    List.length_filter_le _ _
  have h2 : (detectInit tasks).color.length = ((tasks.map (·.id)).dedup).length := by
    unfold detectInit
    simp
  have h3 : ((tasks.map (·.id)).dedup).length ≤ (tasks.map (·.id)).length :=
    List.Sublist.length_le (List.dedup_sublist _)
  have h4 : (tasks.map (·.id)).length = tasks.length := List.length_map _ _
  omega

theorem chain_rtg (tasks : List Task) :
    ∀ (l : List String) (a b : String), List.Chain (EdgeLite tasks) a l →
      (∀ x ∈ l, (taskLookup tasks x).isSome) →
      (a :: l).getLast? = some b →
      Relation.ReflTransGen (Edge tasks) a b := by
  intro l
  induction l with
  | nil =>
    intro a b _ _ hl
    have hab : a = b := by simpa using hl
    exact hab ▸ Relation.ReflTransGen.refl
  | cons c l' ih =>
    intro a b hch hsome hl
    rw [List.chain_cons] at hch
    obtain ⟨hac, hch'⟩ := hch
    have hedge : Edge tasks a c := by
      obtain ⟨t, hlk, hdep⟩ := hac
      exact ⟨t, hlk, hdep, hsome c (List.mem_cons_self _ _)⟩
    have hl' : (c :: l').getLast? = some b := by
      rwa [List.getLast?_cons_cons] at hl
    exact Relation.ReflTransGen.head hedge
      (ih c b hch' (fun x hx => hsome x (List.mem_cons_of_mem _ hx)) hl')

theorem cycle_of_gray (tasks : List Task) (st : DfsSt) (id : String)
    (hinv : DInv tasks st) (hgray : colorOf st id = 1)
    (hlast : ∀ last, st.path.getLast? = some last → EdgeLite tasks last id) :
    HasCycle tasks := by
  have hmem : id ∈ st.path := (hinv.gray_iff id).mp hgray
  obtain ⟨pre, suf, hsplit⟩ := List.append_of_mem hmem
  have hchain : List.Chain (EdgeLite tasks) id suf := by
    have hch := hinv.path_chain
    rw [hsplit] at hch
    exact (List.chain'_append.mp hch).2.1
  obtain ⟨b, hb⟩ := Option.isSome_iff_exists.mp
    (List.getLast?_isSome.mpr (List.cons_ne_nil id suf))
  have hpl : st.path.getLast? = some b := by
    rw [hsplit, List.getLast?_append_of_ne_nil _ (List.cons_ne_nil id suf)]
    exact hb
  have hidsome : (taskLookup tasks id).isSome := hinv.path_mem id hmem
  have hedge : Edge tasks b id := by
    obtain ⟨t, h1, h2⟩ := hlast b hpl
    exact ⟨t, h1, h2, hidsome⟩
  have hrtg : Relation.ReflTransGen (Edge tasks) id b :=
    chain_rtg tasks suf id b hchain
      (fun x hx => hinv.path_mem x
        (by rw [hsplit]; exact List.mem_append_right _ (List.mem_cons_of_mem _ hx)))
      hb
  exact ⟨id, Relation.TransGen.tail' hrtg hedge⟩

theorem dInv_push (tasks : List Task) (st : DfsSt) (id : String) (t : Task)
    (hinv : DInv tasks st) (hlk : taskLookup tasks id = some t)
    (h0 : colorOf st id = 0)
    (hlast : ∀ last, st.path.getLast? = some last → EdgeLite tasks last id) :
    DInv tasks ⟨mapSet st.color id 1, st.path ++ [id]⟩ := by
  have hid_some : (taskLookup tasks id).isSome := by rw [hlk]; rfl
  have hkey : (mapGet st.color id).isSome :=
    color_key_isSome hinv.keys_eq hid_some
  have hnotpath : id ∉ st.path := fun hmem => by
    have := (hinv.gray_iff id).mpr hmem
    omega
  refine ⟨?_, ?_, ?_, ?_, ?_, ?_, ?_⟩
  · show (mapSet st.color id 1).map Prod.fst = _
    rw [mapSet_keys_present _ _ _ hkey]
    exact hinv.keys_eq
  · intro x
    by_cases hx : x = id
    · subst hx
      rw [colorOf_mk_set_self]
      omega
    · rw [colorOf_mk_set_ne st.color (st.path ++ [id]) st.path id x 1 hx]
      exact hinv.color_le x
  · intro x
    by_cases hx : x = id
    · subst hx
      rw [colorOf_mk_set_self]
      simp
    · rw [colorOf_mk_set_ne st.color (st.path ++ [id]) st.path id x 1 hx]
      rw [List.mem_append, List.mem_singleton]
      exact ⟨fun h => Or.inl ((hinv.gray_iff x).mp h),
        fun h => (hinv.gray_iff x).mpr (h.resolve_right hx)⟩
  · show (st.path ++ [id]).Nodup
    refine List.nodup_append.mpr ⟨hinv.path_nodup, List.nodup_singleton id, ?_⟩
    intro a ha hb
    rw [List.mem_singleton] at hb
    subst hb
    exact hnotpath ha
  · intro x hx
    rcases List.mem_append.mp hx with h | h
    · exact hinv.path_mem x h
    · rw [List.mem_singleton] at h
      subst h
      exact hid_some
  · show (st.path ++ [id]).Chain' (EdgeLite tasks)
    refine List.chain'_append.mpr ⟨hinv.path_chain, List.chain'_singleton id, ?_⟩
    intro x hx y hy
    have hy' : y = id := by
      have := hy
      simp only [List.head?_cons, Option.mem_def, Option.some.injEq] at this
      exact this.symm
    subst hy'
    exact hlast x (by simpa [Option.mem_def] using hx)
  · obtain ⟨bl, hnd, hiff, hlay⟩ := hinv.black_layered
    refine ⟨bl, hnd, ?_, hlay⟩
    intro x
    by_cases hx : x = id
    · subst hx
      have hnb : x ∉ bl := fun hmem => by
        have := (hiff x).mpr hmem
        omega
      rw [colorOf_mk_set_self]
      simp [hnb]
    · rw [colorOf_mk_set_ne st.color (st.path ++ [id]) st.path id x 1 hx]
      exact hiff x

theorem dInv_pop (tasks : List Task) (base : List String) (st3 : DfsSt)
    (id : String) (t : Task)
    (hinv3 : DInv tasks st3) (hlk : taskLookup tasks id = some t)
    (hpath3 : st3.path = base ++ [id])
    (hdeps : ∀ d ∈ t.depends_on, (taskLookup tasks d).isSome →
      colorOf st3 d = 2) :
    DInv tasks ⟨mapSet st3.color id 2, base⟩ ∧
      colorOf ⟨mapSet st3.color id 2, base⟩ id = 2 ∧
      (∀ x, colorOf st3 x = 2 → colorOf ⟨mapSet st3.color id 2, base⟩ x = 2) ∧
      whites (mapSet st3.color id 2) ≤ whites st3.color := by
  have hid_some : (taskLookup tasks id).isSome := by rw [hlk]; rfl
  have hkey : (mapGet st3.color id).isSome :=
    color_key_isSome hinv3.keys_eq hid_some
  have hidpath : id ∈ st3.path := by
    rw [hpath3]
    exact List.mem_append_right _ (List.mem_singleton.mpr rfl)
  have hgray : colorOf st3 id = 1 := (hinv3.gray_iff id).mpr hidpath
  have hndbase : base.Nodup ∧ id ∉ base := by
    have hnp := hinv3.path_nodup
    rw [hpath3, List.nodup_append] at hnp
    exact ⟨hnp.1, fun hmem => hnp.2.2 hmem (List.mem_singleton.mpr rfl)⟩
  refine ⟨?_, colorOf_mk_set_self _ _ _ _, ?_, whites_mapSet_le _ _ _ (by omega)⟩
  · refine ⟨?_, ?_, ?_, hndbase.1, ?_, ?_, ?_⟩
    · show (mapSet st3.color id 2).map Prod.fst = _
      rw [mapSet_keys_present _ _ _ hkey]
      exact hinv3.keys_eq
    · intro x
      by_cases hx : x = id
      · subst hx
        rw [colorOf_mk_set_self]
      · rw [colorOf_mk_set_ne st3.color base st3.path id x 2 hx]
        exact hinv3.color_le x
    · intro x
      by_cases hx : x = id
      · subst hx
        rw [colorOf_mk_set_self]
        simp [hndbase.2]
      · rw [colorOf_mk_set_ne st3.color base st3.path id x 2 hx]
        have h1 := hinv3.gray_iff x
        rw [hpath3, List.mem_append, List.mem_singleton] at h1
        exact h1.trans (by simp [hx])
    · intro x hx
      exact hinv3.path_mem x (by rw [hpath3]; exact List.mem_append_left _ hx)
    · have hch := hinv3.path_chain
      rw [hpath3] at hch
      exact (List.chain'_append.mp hch).1
    · obtain ⟨bl, hnd, hiff, hlay⟩ := hinv3.black_layered
      have hnotbl : id ∉ bl := fun hmem => by
        have := (hiff id).mpr hmem
        omega
      refine ⟨id :: bl, List.nodup_cons.mpr ⟨hnotbl, hnd⟩, ?_, ?_⟩
      · intro x
        by_cases hx : x = id
        · subst hx
          rw [colorOf_mk_set_self]
          simp
        · rw [colorOf_mk_set_ne st3.color base st3.path id x 2 hx]
          constructor
          · intro h
            exact List.mem_cons_of_mem _ ((hiff x).mp h)
          · intro h
            rcases List.mem_cons.mp h with h' | h'
            · exact absurd h' hx
            · exact (hiff x).mpr h'
      · show (∀ y, Edge tasks id y → y ∈ bl) ∧ LayeredR tasks bl
        refine ⟨?_, hlay⟩
        intro y hedge
        obtain ⟨t', hl', hy, hys⟩ := hedge
        rw [hlk] at hl'
        cases hl'
        exact (hiff y).mp (hdeps y hy hys)
  · intro x hx2
    by_cases hx : x = id
    · subst hx
      rw [colorOf_mk_set_self]
    · rw [colorOf_mk_set_ne st3.color base st3.path id x 2 hx]
      exact hx2

theorem depStep_absorb (v : String → DfsSt → Option (List String) × DfsSt) :
    ∀ (ds : List String) (c : List String) (st : DfsSt),
      ds.foldl (depStep v) (some c, st) = (some c, st) := by
  intro ds
  induction ds with
  | nil => intro c st; rfl
  | cons d t ih =>
    intro c st
    simp only [List.foldl_cons]
    exact ih c st

theorem visitOK_zero (tasks : List Task) : VisitOK tasks 0 := by
  intro id st hinv hw hlast r st' heq
  exact absurd hw (Nat.not_lt_zero _)

theorem depsOK_of_visitOK (tasks : List Task) (fuel : ℕ)
    (hP : VisitOK tasks fuel) : DepsOK tasks fuel := by
  intro ds
  induction ds with
  | nil =>
    intro st hinv hw hhyp r st' heq
    simp only [List.foldl_nil] at heq
    cases heq
    exact ⟨fun h => by simp at h, fun _ =>
      ⟨hinv, rfl, fun x h => h, by simp, le_refl _⟩⟩
  | cons d ds ih =>
    intro st hinv hw hhyp r st' heq
    simp only [List.foldl_cons] at heq
    rcases hv : dfsVisit tasks fuel d st with ⟨rv, st1⟩
    have heq' : ds.foldl (depStep (dfsVisit tasks fuel)) (rv, st1) = (r, st') := by
      rw [← hv]
      exact heq
    obtain ⟨hs1, hn1⟩ := hP d st hinv hw
      (fun last hl => hhyp d (List.mem_cons_self _ _) last hl) rv st1 hv
    cases rv with
    | some c =>
      rw [depStep_absorb] at heq'
      cases heq'
      exact ⟨fun _ => hs1 rfl, fun hc => by simp at hc⟩
    | none =>
      obtain ⟨hinv1, hpath1, hmono1, hdblack, hw1⟩ := hn1 rfl
      have hhyp' : ∀ d' ∈ ds, ∀ last, st1.path.getLast? = some last →
          EdgeLite tasks last d' := by
        intro d' hd' last hl
        rw [hpath1] at hl
        exact hhyp d' (List.mem_cons_of_mem _ hd') last hl
      obtain ⟨hs2, hn2⟩ := ih st1 hinv1 (lt_of_le_of_lt hw1 hw) hhyp' r st' heq'
      refine ⟨hs2, fun hr => ?_⟩
      obtain ⟨hinv2, hpath2, hmono2, hds2, hw2⟩ := hn2 hr
      refine ⟨hinv2, hpath2.trans hpath1, fun x h => hmono2 x (hmono1 x h),
        ?_, hw2.trans hw1⟩
      intro d' hd' hsome
      rcases List.mem_cons.mp hd' with h' | h'
      · subst h'
        exact hmono2 _ (hdblack hsome)
      · exact hds2 d' h' hsome

theorem visitOK_succ (tasks : List Task) (fuel : ℕ)
    (hQ : DepsOK tasks fuel) : VisitOK tasks (fuel + 1) := by
  intro id st hinv hw hlast r st' heq
  simp only [dfsVisit] at heq
  cases hlk : taskLookup tasks id with
  | none =>
    rw [hlk] at heq
    dsimp only at heq
    cases heq
    refine ⟨fun h => by simp at h, fun _ =>
      ⟨hinv, rfl, fun x h => h, ?_, le_refl _⟩⟩
    intro hs
    rw [hlk] at hs
    simp at hs
  | some t =>
    rw [hlk] at heq
    dsimp only [setColor] at heq
    by_cases hg : colorOf st id = 1
    · rw [if_pos hg] at heq
      cases heq
      exact ⟨fun _ => cycle_of_gray tasks st id hinv hg hlast,
        fun hc => by simp at hc⟩
    · rw [if_neg hg] at heq
      by_cases hb : colorOf st id = 2
      · rw [if_pos hb] at heq
        cases heq
        exact ⟨fun h => by simp at h,
          fun _ => ⟨hinv, rfl, fun x h => h, fun _ => hb, le_refl _⟩⟩
      · rw [if_neg hb] at heq
        have h0 : colorOf st id = 0 := by
          have := hinv.color_le id
          omega
        have hst2 : DInv tasks ⟨mapSet st.color id 1, st.path ++ [id]⟩ :=
          dInv_push tasks st id t hinv hlk h0 hlast
        have hkey : (mapGet st.color id).isSome :=
          color_key_isSome hinv.keys_eq (by rw [hlk]; rfl)
        have hget0 : mapGet st.color id = some 0 := by
          have hcs := colorOf_eq_some hkey
          rwa [h0] at hcs
        have hwlt : whites (mapSet st.color id 1) < whites st.color :=
          whites_mapSet_lt _ _ _ (by omega) hget0
        have hedges : ∀ d ∈ t.depends_on, ∀ last,
            (⟨mapSet st.color id 1, st.path ++ [id]⟩ : DfsSt).path.getLast? =
              some last → EdgeLite tasks last d := by
          intro d hd last hl
          have hli : last = id := by
            show last = id
            have hl' : (st.path ++ [id]).getLast? = some last := hl
            rw [List.getLast?_append_of_ne_nil _ (List.cons_ne_nil id [])] at hl'
            simpa using hl'.symm
          subst hli
          exact ⟨t, hlk, hd⟩
        rcases hdeps : t.depends_on.foldl (depStep (dfsVisit tasks fuel))
            (none, ⟨mapSet st.color id 1, st.path ++ [id]⟩) with ⟨rd, st3⟩
        rw [hdeps] at heq
        obtain ⟨hsd, hnd⟩ := hQ t.depends_on
          ⟨mapSet st.color id 1, st.path ++ [id]⟩ hst2
          (show whites (mapSet st.color id 1) < fuel by omega) hedges rd st3 hdeps
        cases rd with
        | some c =>
          dsimp only at heq
          cases heq
          exact ⟨fun _ => hsd rfl, fun hc => by simp at hc⟩
        | none =>
          dsimp only [setColor] at heq
          cases heq
          obtain ⟨hinv3, hpath3u, hmono3, hdblack3, hwle3u⟩ := hnd rfl
          have hpath3 : st3.path = st.path ++ [id] := hpath3u
          have hwle3 : whites st3.color ≤ whites (mapSet st.color id 1) := hwle3u
          have hpop := dInv_pop tasks st.path st3 id t hinv3 hlk hpath3
            (fun d hd hs => hdblack3 d hd hs)
          obtain ⟨hinvf, hcid, hmonof, hwf⟩ := hpop
          have hdrop : st3.path.dropLast = st.path := by
            rw [hpath3]
            simp
          refine ⟨fun h => by simp at h, fun _ => ?_⟩
          rw [hdrop]
          refine ⟨hinvf, rfl, ?_, fun _ => hcid, ?_⟩
          · intro x hx
            have hxid : x ≠ id := fun he => by
              subst he
              omega
            have h2 : colorOf (⟨mapSet st.color id 1, st.path ++ [id]⟩ : DfsSt) x = 2 := by
              rw [colorOf_mk_set_ne st.color _ st.path id x 1 hxid]
              exact hx
            exact hmonof x (hmono3 x h2)
          · show whites (mapSet st3.color id 2) ≤ whites st.color
            omega

theorem visitOK_all (tasks : List Task) : ∀ fuel, VisitOK tasks fuel := by
  intro fuel
  induction fuel with
  | zero => exact visitOK_zero tasks
  | succ n ih => exact visitOK_succ tasks n (depsOK_of_visitOK tasks n ih)

theorem detectTop_ok (tasks : List Task) :
    ∀ (ts : List Task) (st : DfsSt), DInv tasks st → st.path = [] →
      whites st.color < detectFuel tasks →
      ((detectTop tasks ts st).isSome → HasCycle tasks) ∧
      (detectTop tasks ts st = none → ∃ st', DInv tasks st' ∧
        (∀ x, colorOf st x = 2 → colorOf st' x = 2) ∧
        ∀ t ∈ ts, t ∈ tasks → colorOf st' t.id = 2) := by
  intro ts
  induction ts with
  | nil =>
    intro st hinv hpath hw
    refine ⟨fun h => by simp [detectTop] at h,
      fun _ => ⟨st, hinv, fun x h => h, ?_⟩⟩
    intro t ht
    exact absurd ht (List.not_mem_nil t)
  | cons t ts ih =>
    intro st hinv hpath hw
    simp only [detectTop]
    by_cases hc0 : colorOf st t.id = 0
    · simp only [if_pos hc0]
      rcases hv : dfsVisit tasks (detectFuel tasks) t.id st with ⟨rv, st1⟩
      obtain ⟨hs, hn⟩ := visitOK_all tasks (detectFuel tasks) t.id st hinv hw
        (fun last hl => by rw [hpath] at hl; cases hl) rv st1 hv
      cases rv with
      | some c =>
        simp only [hv]
        exact ⟨fun _ => hs rfl, fun hcon => absurd hcon (by simp)⟩
      | none =>
        simp only [hv]
        obtain ⟨hinv1, hpath1, hmono1, hblack1, hw1⟩ := hn rfl
        have hpath1' : st1.path = [] := by rw [hpath1, hpath]
        obtain ⟨hs2, hn2⟩ := ih st1 hinv1 hpath1' (lt_of_le_of_lt hw1 hw)
        refine ⟨hs2, fun hnone => ?_⟩
        obtain ⟨st2, hinv2, hmono2, hall2⟩ := hn2 hnone
        refine ⟨st2, hinv2, fun x h => hmono2 x (hmono1 x h), ?_⟩
        intro t' ht' htm
        rcases List.mem_cons.mp ht' with h' | h'
        · subst h'
          exact hmono2 _ (hblack1 (taskLookup_isSome_of_mem htm))
        · exact hall2 t' h' htm
    · simp only [if_neg hc0]
      have hc2 : colorOf st t.id = 2 := by
        have hle := hinv.color_le t.id
        have hgi := hinv.gray_iff t.id
        rw [hpath] at hgi
        have hnot1 : colorOf st t.id ≠ 1 := fun h =>
          absurd (hgi.mp h) (List.not_mem_nil _)
        omega
      obtain ⟨hs2, hn2⟩ := ih st hinv hpath hw
      refine ⟨hs2, fun hnone => ?_⟩
      obtain ⟨st2, hinv2, hmono2, hall2⟩ := hn2 hnone
      refine ⟨st2, hinv2, hmono2, ?_⟩
      intro t' ht' htm
      rcases List.mem_cons.mp ht' with h' | h'
      · subst h'
        exact hmono2 _ hc2
      · exact hall2 t' h' htm

theorem layered_edge (tasks : List Task) :
    ∀ (bl : List String), LayeredR tasks bl → ∀ a b, a ∈ bl →
      Edge tasks a b → b ∈ bl.tail := by
  intro bl
  induction bl with
  | nil =>
    intro _ a b ha _
    exact absurd ha (List.not_mem_nil a)
  | cons x rest ih =>
    intro hlay a b hmem hedge
    obtain ⟨h1, h2⟩ := hlay
    rcases List.mem_cons.mp hmem with rfl | hmem'
    · exact h1 b hedge
    · exact List.mem_of_mem_tail (ih h2 a b hmem' hedge)

theorem layered_no_cycle (tasks : List Task) :
    ∀ (bl : List String), LayeredR tasks bl → bl.Nodup →
      ∀ a ∈ bl, ¬ Relation.TransGen (Edge tasks) a a := by
  intro bl
  induction bl with
  | nil =>
    intro _ _ a ha
    exact absurd ha (List.not_mem_nil a)
  | cons x rest ih =>
    intro hlay hnd a ha htg
    obtain ⟨h1, h2⟩ := hlay
    have hxnot : x ∉ rest := (List.nodup_cons.mp hnd).1
    rcases List.mem_cons.mp ha with rfl | ha'
    · have hreach : ∀ q, Relation.TransGen (Edge tasks) a q → q ∈ rest := by
        intro q h
        induction h with
        | single he => exact h1 _ he
        | tail h1' he ih' =>
          exact List.mem_of_mem_tail (layered_edge tasks rest h2 _ _ ih' he)
      exact hxnot (hreach a htg)
    · exact ih h2 (List.nodup_cons.mp hnd).2 a ha' htg

theorem detect_some_hasCycle (tasks : List Task) (c : List String)
    (h : detect_cyclic_dependencies tasks = some c) : HasCycle tasks := by
  have hd := (detectTop_ok tasks tasks (detectInit tasks) (dInv_detectInit tasks)
    rfl (whites_detectInit tasks)).1
  unfold detect_cyclic_dependencies at h
  rw [h] at hd
  exact hd rfl

theorem detect_none_acyclic (tasks : List Task)
    (h : detect_cyclic_dependencies tasks = none) : ¬ HasCycle tasks := by
  obtain ⟨st', hinv', hmono, hall⟩ :=
    (detectTop_ok tasks tasks (detectInit tasks) (dInv_detectInit tasks)
      rfl (whites_detectInit tasks)).2 h
  obtain ⟨bl, hbnd, hbiff, hlay⟩ := hinv'.black_layered
  rintro ⟨a, htg⟩
  have hASome : (taskLookup tasks a).isSome := by
    obtain ⟨b, he, _⟩ := Relation.TransGen.head'_iff.mp htg
    obtain ⟨t, hl, _, _⟩ := he
    rw [hl]
    rfl
  obtain ⟨t, ht⟩ := Option.isSome_iff_exists.mp hASome
  obtain ⟨hid, hmem⟩ := taskLookup_id ht
  have hblack : colorOf st' a = 2 := by
    rw [← hid]
    exact hall t hmem hmem
  exact layered_no_cycle tasks bl hlay hbnd a ((hbiff a).mp hblack) htg

theorem detect_none_of_acyclic (tasks : List Task) (h : ¬ HasCycle tasks) :
    detect_cyclic_dependencies tasks = none := by
  cases hd : detect_cyclic_dependencies tasks with
  | none => rfl
  | some c => exact absurd (detect_some_hasCycle tasks c hd) h

/-- C6: for every task list whose dependency graph contains a cycle,
`dispatch_next_task` raises the cyclic-dependency error (modelled as
`Except.error` carrying the reported cycle) and returns the task-state
map exactly as it received it, so no task of the project is dispatched
and none is marked running or completed by the call. -/
theorem c6_cycle_error_no_dispatch (tasks : List Task) (states : StateMap)
    (cur summ : Option String) (now : String) (h : HasCycle tasks) :
    ∃ c, dispatch_next_task tasks states cur summ now =
      (.error c, states) := by
  cases hd : detect_cyclic_dependencies tasks with
  | none => exact absurd h (detect_none_acyclic tasks hd)
  | some c =>
    refine ⟨c, ?_⟩
    unfold dispatch_next_task
    rw [hd]

/-- Witness for C6: the two-task cycle A ↔ B yields an error and an
unchanged (empty) state map. -/
theorem c6_cycle_error_no_dispatch_witness :
    ∃ c, dispatch_next_task c6Tasks [] none none "T" = (.error c, []) :=
  c6_cycle_error_no_dispatch c6Tasks [] none none "T"
    ⟨"A", Relation.TransGen.head
      (⟨c6TaskA, rfl, by decide, by decide⟩ : Edge c6Tasks "A" "B")
      (Relation.TransGen.single
        (⟨c6TaskB, rfl, by decide, by decide⟩ : Edge c6Tasks "B" "A"))⟩

theorem readyStep_eq (ready : List Task) (sts : StateMap) (t : Task) :
    readyStep (ready, sts) t =
      if statusOf sts t.id ≠ "PENDING" then (ready, readyInsert sts t)
      else if t.depends_on.all
          (fun depId => depCompleted (readyInsert sts t) depId)
      then (ready ++ [t], readyInsert sts t)
      else (ready, readyInsert sts t) := by
  unfold readyStep readyInsert statusOf depCompleted
  cases hg : mapGet sts t.id with
  | some s => simp [hg]
  | none => simp [hg]

theorem readyInsert_get_ne (sts : StateMap) (t : Task) (x : String)
    (h : x ≠ t.id) : mapGet (readyInsert sts t) x = mapGet sts x := by
  unfold readyInsert
  split
  · rfl
  · exact mapGet_mapSet_ne _ _ _ _ h

theorem statusOf_readyInsert (sts : StateMap) (t : Task) (x : String) :
    statusOf (readyInsert sts t) x = statusOf sts x := by
  by_cases hx : x = t.id
  · subst hx
    unfold readyInsert statusOf
    by_cases hg : (mapGet sts t.id).isSome
    · rw [if_pos hg]
    · rw [if_neg hg, mapGet_mapSet_self]
      rw [Option.not_isSome_iff_eq_none] at hg
      rw [hg]
  · unfold statusOf
    rw [readyInsert_get_ne _ _ _ hx]

theorem depCompleted_readyInsert (sts : StateMap) (t : Task) (x : String) :
    depCompleted (readyInsert sts t) x = depCompleted sts x := by
  by_cases hx : x = t.id
  · subst hx
    unfold readyInsert depCompleted
    by_cases hg : (mapGet sts t.id).isSome
    · rw [if_pos hg]
    · rw [if_neg hg, mapGet_mapSet_self]
      rw [Option.not_isSome_iff_eq_none] at hg
      rw [hg]
      decide
  · unfold depCompleted
    rw [readyInsert_get_ne _ _ _ hx]

theorem ready_aux (task : Task) (d : String) (hd : d ∈ task.depends_on) :
    ∀ (ts : List Task) (acc : List Task × StateMap),
      (∀ t ∈ ts, t.id ≠ d) → task ∉ acc.1 → mapGet acc.2 d = none →
      task ∉ (ts.foldl readyStep acc).1 ∧
        mapGet (ts.foldl readyStep acc).2 d = none := by
  intro ts
  induction ts with
  | nil =>
    intro acc _ h1 h2
    exact ⟨h1, h2⟩
  | cons t ts ih =>
    intro acc hne h1 h2
    rcases acc with ⟨ready, sts⟩
    have htd : t.id ≠ d := hne t (List.mem_cons_self _ _)
    have hdnone : mapGet (readyInsert sts t) d = none := by
      rw [readyInsert_get_ne _ _ _ (Ne.symm htd)]
      exact h2
    simp only [List.foldl_cons, readyStep_eq]
    by_cases hst : statusOf sts t.id ≠ "PENDING"
    · rw [if_pos hst]
      exact ih _ (fun u hu => hne u (List.mem_cons_of_mem _ hu)) h1 hdnone
    · rw [if_neg hst]
      by_cases hmet : t.depends_on.all
          (fun depId => depCompleted (readyInsert sts t) depId) = true
      · rw [if_pos hmet]
        have htne : task ≠ t := by
          intro he
          rw [List.all_eq_true] at hmet
          have hdc : depCompleted (readyInsert sts t) d = true :=
            hmet d (he ▸ hd)
          have hfalse : depCompleted (readyInsert sts t) d = false := by
            unfold depCompleted
            rw [hdnone]
          rw [hfalse] at hdc
          exact absurd hdc (by simp)
        refine ih _ (fun u hu => hne u (List.mem_cons_of_mem _ hu)) ?_ hdnone
        intro hmem
        rcases List.mem_append.mp hmem with h' | h'
        · exact h1 h'
        · rw [List.mem_singleton] at h'
          exact htne h'
      · rw [if_neg hmet]
        exact ih _ (fun u hu => hne u (List.mem_cons_of_mem _ hu)) h1 hdnone

theorem ready_stall_aux (states : StateMap) :
    ∀ (ts : List Task) (acc : List Task × StateMap),
      acc.1 = [] →
      (∀ x, statusOf acc.2 x = statusOf states x) →
      (∀ x, depCompleted acc.2 x = depCompleted states x) →
      (∀ t ∈ ts, statusOf states t.id ≠ "PENDING" ∨
        ∃ dep ∈ t.depends_on, depCompleted states dep = false) →
      (ts.foldl readyStep acc).1 = [] := by
  intro ts
  induction ts with
  | nil =>
    intro acc h1 _ _ _
    exact h1
  | cons t ts ih =>
    intro acc h1 h2 h3 h4
    rcases acc with ⟨ready, sts⟩
    simp only at h1 h2 h3
    subst h1
    simp only [List.foldl_cons, readyStep_eq]
    have h2' : ∀ x, statusOf (readyInsert sts t) x = statusOf states x :=
      fun x => (statusOf_readyInsert sts t x).trans (h2 x)
    have h3' : ∀ x, depCompleted (readyInsert sts t) x = depCompleted states x :=
      fun x => (depCompleted_readyInsert sts t x).trans (h3 x)
    have h4' := fun u hu => h4 u (List.mem_cons_of_mem _ hu)
    by_cases hst : statusOf sts t.id ≠ "PENDING"
    · rw [if_pos hst]
      exact ih _ rfl h2' h3' h4'
    · rw [if_neg hst]
      push_neg at hst
      have hpend : statusOf states t.id = "PENDING" := by
        rw [← h2 t.id]
        exact hst
      rcases h4 t (List.mem_cons_self _ _) with hne | ⟨dep, hdep, hfalse⟩
      · exact absurd hpend hne
      · have hmet : ¬ (t.depends_on.all
            (fun depId => depCompleted (readyInsert sts t) depId) = true) := by
          intro hall
          rw [List.all_eq_true] at hall
          have hthis : depCompleted (readyInsert sts t) dep = true :=
            hall dep hdep
          rw [h3' dep, hfalse] at hthis
          exact absurd hthis (by simp)
        rw [if_neg hmet]
        exact ih _ rfl h2' h3' h4'

theorem taskLookup_strip (tasks : List Task) (id : String) :
    taskLookup (stripUnknownDeps tasks) id =
      (taskLookup tasks id).map (fun t =>
        { t with depends_on :=
            t.depends_on.filter (fun d => (taskLookup tasks d).isSome) }) := by
  unfold taskLookup stripUnknownDeps
  rw [← List.map_reverse, List.find?_map]
  rfl

theorem edge_strip (tasks : List Task) (a b : String) :
    Edge (stripUnknownDeps tasks) a b ↔ Edge tasks a b := by
  constructor
  · rintro ⟨t', hl', hb, _⟩
    rw [taskLookup_strip] at hl'
    obtain ⟨t, hl, hft⟩ := Option.map_eq_some'.mp hl'
    subst hft
    rw [List.mem_filter] at hb
    exact ⟨t, hl, hb.1, by simpa using hb.2⟩
  · rintro ⟨t, hl, hb, hbs⟩
    refine ⟨_, by rw [taskLookup_strip, hl]; rfl, ?_, ?_⟩
    · rw [List.mem_filter]
      exact ⟨hb, by simpa using hbs⟩
    · rw [taskLookup_strip]
      simpa using hbs

theorem hasCycle_strip (tasks : List Task) :
    HasCycle (stripUnknownDeps tasks) ↔ HasCycle tasks := by
  constructor
  · rintro ⟨a, htg⟩
    exact ⟨a, Relation.TransGen.mono
      (fun x y h => (edge_strip tasks x y).mp h) htg⟩
  · rintro ⟨a, htg⟩
    exact ⟨a, Relation.TransGen.mono
      (fun x y h => (edge_strip tasks x y).mpr h) htg⟩

theorem detect_strip (tasks : List Task) :
    detect_cyclic_dependencies (stripUnknownDeps tasks) = none ↔
      detect_cyclic_dependencies tasks = none := by
  constructor
  · intro h
    exact detect_none_of_acyclic tasks
      ((Iff.not (hasCycle_strip tasks)).mp
        (detect_none_acyclic (stripUnknownDeps tasks) h))
  · intro h
    exact detect_none_of_acyclic (stripUnknownDeps tasks)
      ((Iff.not (hasCycle_strip tasks)).mpr (detect_none_acyclic tasks h))

/-- C10: a dependency id that matches no manifest task is treated as
never completed.  (a) A task listing such a dependency, with no state
entry recorded under the unknown id, is never returned by
`get_ready_tasks`.  (b) When the graph is acyclic and every PENDING
task has some unmet dependency — in particular when the only pending
tasks wait on unknown ids — `dispatch_next_task` returns no task and no
prompt instead of raising an error.  (c) Cycle detection silently
ignores unknown ids: removing them from every dependency list does not
change whether a cycle is reported. -/
theorem c10_unknown_dependency_handling :
    (∀ (tasks : List Task) (states : StateMap) (task : Task) (d : String),
      task ∈ tasks → d ∈ task.depends_on → taskLookup tasks d = none →
      mapGet states d = none →
      task ∉ (get_ready_tasks tasks states).1) ∧
    (∀ (tasks : List Task) (states : StateMap) (summ : Option String)
      (now : String), ¬ HasCycle tasks →
      (∀ t ∈ tasks, statusOf states t.id ≠ "PENDING" ∨
        ∃ dep ∈ t.depends_on, depCompleted states dep = false) →
      dispatch_next_task tasks states none summ now =
        (.ok (none, none), (get_ready_tasks tasks states).2)) ∧
    (∀ tasks : List Task,
      detect_cyclic_dependencies (stripUnknownDeps tasks) = none ↔
        detect_cyclic_dependencies tasks = none) := by
  refine ⟨?_, ?_, detect_strip⟩
  · intro tasks states task d hmem hdep hunknown hstate
    have hne : ∀ t ∈ tasks, t.id ≠ d := by
      intro t ht he
      have hsome := taskLookup_isSome_of_mem ht
      rw [he, hunknown] at hsome
      simp at hsome
    exact (ready_aux task d hdep tasks ([], states) hne
      (List.not_mem_nil task) hstate).1
  · intro tasks states summ now hacyclic hstall
    rcases hr : get_ready_tasks tasks states with ⟨ready, states'⟩
    have hready : ready = [] := by
      have h := ready_stall_aux states tasks ([], states) rfl
        (fun x => rfl) (fun x => rfl) hstall
      unfold get_ready_tasks at hr
      rw [hr] at h
      exact h
    subst hready
    unfold dispatch_next_task
    rw [detect_none_of_acyclic tasks hacyclic]
    dsimp only
    rw [hr]

/-- Witness for C10 on the one-task manifest whose task depends on the
unknown id "ghost": the task is not ready and dispatch stalls without
raising. -/
theorem c10_unknown_dependency_handling_witness :
    c10Task ∉ (get_ready_tasks c10Tasks c10States).1 ∧
    dispatch_next_task c10Tasks c10States none none "T" =
      (.ok (none, none), (get_ready_tasks c10Tasks c10States).2) :=
  ⟨c10_unknown_dependency_handling.1 c10Tasks c10States c10Task "ghost"
      (by decide) (by decide) rfl rfl,
    c10_unknown_dependency_handling.2.1 c10Tasks c10States none "T"
      (by
        rintro ⟨a, htg⟩
        have hno : ∀ x y, ¬ Edge c10Tasks x y := by
          rintro x y ⟨t, hl, hy, hs⟩
          obtain ⟨hid, hmem⟩ := taskLookup_id hl
          have ht : t = c10Task := by simpa [c10Tasks] using hmem
          subst ht
          have hy' : y = "ghost" := by simpa [c10Task] using hy
          subst hy'
          exact absurd hs (by decide)
        cases htg with
        | single h => exact hno _ _ h
        | tail h' h => exact hno _ _ h)
      (by decide)⟩

end Autopilot
